import Mathlib

/-!
Shallow embedding of the jwst-target-parameters pipeline
(src/main.py and src/modules/epa_query.py).

Tables (polars DataFrames) are modelled as a structure holding a column
list and a list of rows; a row is an association list from column name to
cell value, in column order, matching what polars iter_rows(named=True)
yields.  Cell values are modelled by an inductive Value type: strings,
integers, and the float-NaN missing sentinel.  Fallible Python code is
modelled with Except over an explicit error type mirroring the exception
classes the source can raise.  The polars sort (by planet_name) is
modelled as a stable insertion sort on the name column.
-/

instance {ε α : Type} [DecidableEq ε] [DecidableEq α] : DecidableEq (Except ε α)
  | Except.error e, Except.error f =>
    if h : e = f then isTrue (by rw [h])
    else isFalse (by intro hh; cases hh; exact h rfl)
  | Except.error _, Except.ok _ => isFalse (by intro h; cases h)
  | Except.ok _, Except.error _ => isFalse (by intro h; cases h)
  | Except.ok a, Except.ok b =>
    if h : a = b then isTrue (by rw [h])
    else isFalse (by intro hh; cases hh; exact h rfl)

/-- A cell value: the float-NaN missing sentinel, a string, or a number. -/
inductive Value where
  | vNaN : Value
  | vStr (s : String) : Value
  | vInt (n : Int) : Value
deriving DecidableEq

/-- Exception classes the embedded code can raise (Python KeyError,
polars ColumnNotFoundError / TooManyRowsReturnedError / ComputeError,
Python ValueError / IndexError).  The polars NoRowsReturnedError is
caught inside update_rows and therefore never escapes. -/
inductive PyErr where
  | keyError (k : String)
  | columnNotFoundError (c : String)
  | tooManyRowsReturnedError
  | computeError
  | valueError
  | indexError
deriving DecidableEq

/-- A row as an insertion-ordered dictionary, as produced by
polars iter_rows(named=True). -/
abbrev Row := List (String × Value)

/-- The key list of a row dictionary, in insertion order. -/
def dictKeys (r : Row) : List String := r.map Prod.fst

/-- Python dict assignment d[k] = v: replace in place if the key exists,
append at the end otherwise. -/
def dictSet (r : Row) (k : String) (v : Value) : Row :=
  if r.any (fun p => p.1 == k) then
    r.map (fun p => if p.1 == k then (k, v) else p)
  else r ++ [(k, v)]

/-- The Python loop "for key, value in other.items(): d[key] = value". -/
def dictUpdate (r other : Row) : Row :=
  other.foldl (fun acc kv => dictSet acc kv.1 kv.2) r

/-- A polars DataFrame: column names plus rows (each row keyed by the
column names, in order). -/
structure Frame where
  cols : List String
  rows : List Row
deriving DecidableEq

/-- Well-formedness of a DataFrame, guaranteed by polars construction:
column names are unique and every row is keyed exactly by the columns. -/
def WFFrame (f : Frame) : Prop :=
  f.cols.Nodup ∧ ∀ r ∈ f.rows, dictKeys r = f.cols

instance (f : Frame) : Decidable (WFFrame f) := by
  unfold WFFrame; infer_instance

/-- Equality test between a cell value and a literal, as evaluated by a
polars expression (pl.col(...) == literal): IEEE semantics make NaN
unequal to everything including itself; comparing a string with a
numeric value raises a ComputeError. -/
def compareEq : Value → Value → Except PyErr Bool
  | Value.vStr a, Value.vStr b => Except.ok (a == b)
  | Value.vInt a, Value.vInt b => Except.ok (a == b)
  | Value.vNaN, Value.vNaN => Except.ok false
  | Value.vNaN, Value.vInt _ => Except.ok false
  | Value.vInt _, Value.vNaN => Except.ok false
  | Value.vStr _, _ => Except.error PyErr.computeError
  | _, Value.vStr _ => Except.error PyErr.computeError

/-- The planet_name cell of a row (polars yields null-like data for a
missing entry; rows of well-formed frames always carry the key when the
column exists). -/
def nameOfD (r : Row) : Value := (List.lookup "planet_name" r).getD Value.vNaN

/-- The rows of the remote frame satisfying the predicate
pl.col("planet_name") == v, evaluated row by row; a type-mismatched
comparison raises ComputeError. -/
def filterMatches (rows : List Row) (v : Value) : Except PyErr (List Row) :=
  match rows with
  | [] => Except.ok []
  | r :: rest => do
    let b ← compareEq (nameOfD r) v
    let tail ← filterMatches rest v
    if b then Except.ok (r :: tail) else Except.ok tail

/-- src/main.py update_rows: look up the single remote row whose
planet_name equals this row's planet_name and copy every one of its
columns into the row dictionary; a zero-match (NoRowsReturnedError) is
caught and skipped; more than one match raises
TooManyRowsReturnedError; a missing planet_name key in the row raises
KeyError; a missing planet_name column in the remote frame raises
ColumnNotFoundError. -/
def update_rows (row_dict : Row) (query_result : Frame) : Except PyErr Row :=
  match List.lookup "planet_name" row_dict with
  | none => Except.error (PyErr.keyError "planet_name")
  | some v =>
    if "planet_name" ∈ query_result.cols then
      match filterMatches query_result.rows v with
      | Except.error e => Except.error e
      | Except.ok [] => Except.ok row_dict
      | Except.ok [r] => Except.ok (dictUpdate row_dict r)
      | Except.ok (_ :: _ :: _) => Except.error PyErr.tooManyRowsReturnedError
    else Except.error (PyErr.columnNotFoundError "planet_name")

/-- Ordinal (code-point lexicographic) comparison of character lists,
the string order used by numpy and polars. -/
def charListLe : List Char → List Char → Bool
  | [], _ => true
  | _ :: _, [] => false
  | a :: as, b :: bs => if a = b then charListLe as bs else decide (a < b)

/-- Ordinal (code-point lexicographic) string comparison. -/
def strLe (s t : String) : Bool := charListLe s.data t.data

/-- Ordinal string comparison, as a relation. -/
def strOrder (s t : String) : Prop := strLe s t = true

instance : DecidableRel strOrder := fun s t =>
  inferInstanceAs (Decidable (strLe s t = true))

/-- numpy setdiff1d: the sorted unique values of the first list that are
absent from the second. -/
def setdiff1d (a b : List String) : List String :=
  List.insertionSort strOrder ((a.filter (fun x => !b.contains x)).dedup)

/-- polars with_columns([pl.lit(nan).alias(c) for c in queried]):
append each queried column, every cell set to the NaN sentinel. -/
def extendRow (queried : List String) (r : Row) : Row :=
  queried.foldl (fun acc c => dictSet acc c Value.vNaN) r

/-- Total order on cell values used by the polars sort on the name
column: on strings it is the ordinal (code-point) string order. -/
def valueLe : Value → Value → Bool
  | Value.vNaN, _ => true
  | Value.vInt _, Value.vNaN => false
  | Value.vInt a, Value.vInt b => decide (a ≤ b)
  | Value.vInt _, Value.vStr _ => true
  | Value.vStr _, Value.vNaN => false
  | Value.vStr _, Value.vInt _ => false
  | Value.vStr a, Value.vStr b => strLe a b

/-- Row comparison by planet_name. -/
def rowLe (a b : Row) : Bool := valueLe (nameOfD a) (nameOfD b)

/-- Row comparison by planet_name, as a relation. -/
def rowOrder (a b : Row) : Prop := rowLe a b = true

instance : DecidableRel rowOrder := fun a b =>
  inferInstanceAs (Decidable (rowLe a b = true))

/-- pl.DataFrame(list_of_dicts).sort(by="planet_name"): constructing a
frame from an empty list of dicts loses the schema, so sorting it by
planet_name raises ColumnNotFoundError, as it also does when the
constructed frame lacks the planet_name column; otherwise the rows are
sorted (stably) by the planet_name cell. -/
def sortByName (rows : List Row) : Except PyErr (List Row) :=
  match rows with
  | [] => Except.error (PyErr.columnNotFoundError "planet_name")
  | r :: _ =>
    if "planet_name" ∈ dictKeys r then
      Except.ok (List.insertionSort rowOrder rows)
    else Except.error (PyErr.columnNotFoundError "planet_name")

/-- src/main.py update_frame: extend the parent frame with the remote
columns it lacks (NaN-initialised), update each row from the remote
frame, and sort the result by planet_name. -/
def update_frame (parent_frame child_frame : Frame) : Except PyErr Frame := do
  let queried_columns := setdiff1d child_frame.cols parent_frame.cols
  let final_rows := parent_frame.rows.map (extendRow queried_columns)
  let temporary_dictionary ← final_rows.mapM (fun r => update_rows r child_frame)
  let finalised ← sortByName temporary_dictionary
  Except.ok { cols := parent_frame.cols ++ queried_columns, rows := finalised }

/-- A value of the QUERY_PARAMETERS dictionary in
src/modules/epa_query.py: either a plain local name (a string) or a
(semantic name, physical unit) pair. -/
inductive ParamSpec where
  | ident (s : String) : ParamSpec
  | phys (name unit : String) : ParamSpec
deriving DecidableEq

/-- The fixed exception list of create_query_parameter_catalogue. -/
def epaExceptions : List String :=
  ["pl_name", "sy_pnum", "sy_snum", "hostname", "pl_letter"]

/-- src/modules/epa_query.py QUERY_PARAMETERS: the curated mapping from
EPA identifiers to local names or (name, unit) pairs. -/
def QUERY_PARAMETERS : List (String × ParamSpec) :=
  [ ("pl_name", ParamSpec.ident "planet_name"),
    ("sy_pnum", ParamSpec.ident "system_p-num"),
    ("sy_snum", ParamSpec.ident "system_s-num"),
    ("hostname", ParamSpec.ident "host_name"),
    ("pl_letter", ParamSpec.ident "planet_id"),
    ("sy_dist", ParamSpec.phys "system-distance" "pc"),
    ("pl_orbper", ParamSpec.phys "period" "day"),
    ("pl_orbsmax", ParamSpec.phys "sma" "au"),
    ("pl_rade", ParamSpec.phys "radius" "rearth"),
    ("pl_bmasse", ParamSpec.phys "mass" "mearth"),
    ("pl_eqt", ParamSpec.phys "eq-temp" "kelvin"),
    ("st_teff", ParamSpec.phys "star-teff" "kelvin"),
    ("st_rad", ParamSpec.phys "star-radius" "rsol"),
    ("st_mass", ParamSpec.phys "star-mass" "msol"),
    ("st_lum", ParamSpec.phys "star-log10-lbol" "lsol"),
    ("st_age", ParamSpec.phys "star-age" "ga"),
    ("st_vsin", ParamSpec.phys "star-rotvel" "kms") ]

/-- src/modules/epa_query.py assign_query_parameters: the four derived
query-parameter names for one physical quantity. -/
def assign_query_parameters (epa_name table_name unit : String) :
    List (String × ParamSpec) :=
  [ (epa_name, ParamSpec.ident (table_name ++ "_" ++ unit)),
    (epa_name ++ "err1", ParamSpec.ident (table_name ++ "_errpos")),
    (epa_name ++ "err2", ParamSpec.ident (table_name ++ "_errneg")),
    (epa_name ++ "_reflink", ParamSpec.ident (table_name ++ "_ref")) ]

/-- Python dict assignment for String-to-ParamSpec dictionaries. -/
def dictSetP (d : List (String × ParamSpec)) (k : String) (v : ParamSpec) :
    List (String × ParamSpec) :=
  if d.any (fun p => p.1 == k) then
    d.map (fun p => if p.1 == k then (k, v) else p)
  else d ++ [(k, v)]

/-- The Python dict merge a | b. -/
def dictMergeP (a b : List (String × ParamSpec)) : List (String × ParamSpec) :=
  b.foldl (fun acc kv => dictSetP acc kv.1 kv.2) a

/-- The Python tuple unpacking "my_name, phys_unit = value": a pair
unpacks to its components; a string unpacks only when it has exactly two
characters (each becoming a one-character string), otherwise a
ValueError is raised. -/
def unpackPair (v : ParamSpec) : Except PyErr (String × String) :=
  match v with
  | ParamSpec.phys n u => Except.ok (n, u)
  | ParamSpec.ident s =>
    match s.toList with
    | [a, b] => Except.ok (String.singleton a, String.singleton b)
    | _ => Except.error PyErr.valueError

/-- src/modules/epa_query.py create_query_parameter_catalogue: expand
the curated parameter dictionary, keeping exception keys as single
pairs and expanding every other entry through
assign_query_parameters. -/
def create_query_parameter_catalogue
    (parameter_list : List (String × ParamSpec)) :
    Except PyErr (List (String × ParamSpec)) :=
  parameter_list.foldlM
    (fun finalised kv =>
      if kv.1 ∈ epaExceptions then
        Except.ok (dictMergeP finalised [kv])
      else do
        let p ← unpackPair kv.2
        Except.ok (dictMergeP finalised
          (assign_query_parameters kv.1 p.1 p.2)))
    []

/-- Python s[:-1]: the string without its last character (the empty
string stays empty). -/
def pyDropLast (s : String) : String := s.data.dropLast.asString

/-- src/modules/epa_query.py string_from_list: comma-join the entries,
each wrapped in the qualifier, then drop the trailing comma. -/
def string_from_list (names : List String) (qualifier : String := "") : String :=
  pyDropLast (names.foldl (fun acc name => acc ++ qualifier ++ name ++ qualifier ++ ",") "")

/-- A single-quote character, as a string. -/
def squote : String := String.singleton (Char.ofNat 39)

/-- src/modules/epa_query.py construct_adql_query: the ADQL query
string selecting the expanded parameters from pscomppars and filtering
on the planet names. -/
def construct_adql_query (planet_names : List String)
    (query_parameter_list : List (String × ParamSpec)) : String :=
  let selection_string := string_from_list (query_parameter_list.map Prod.fst)
  let name_sequence := string_from_list planet_names squote
  let base_str := "SELECT " ++ selection_string ++ " FROM pscomppars "
  let query_name := "WHERE pl_name IN (" ++ name_sequence ++ ")"
  base_str ++ query_name

/-- numpy setxor1d: the sorted unique values present in exactly one of
the two lists (the symmetric difference). -/
def setxor1d (a b : List String) : List String :=
  List.insertionSort strOrder
    ((a.dedup.filter (fun x => !b.contains x) ++
      b.dedup.filter (fun x => !a.contains x)).dedup)

/-- The log message emitted by the sanity check of query_nasa_epa. -/
inductive EpaLog where
  | allQueried : EpaLog
  | warnLost (lost : List String) : EpaLog
deriving DecidableEq

/-- src/modules/epa_query.py query_nasa_epa, lines 109-119: the
lost-target list computed after the remote response arrives. -/
def epa_lost_targets (target_names returned_names : List String) : List String :=
  setxor1d target_names returned_names

/-- src/modules/epa_query.py query_nasa_epa, lines 113-119: the sanity
check never raises; it logs an info message when no target was lost and
otherwise a warning carrying the lost-target list. -/
def epa_sanity_check (target_names returned_names : List String) : EpaLog :=
  let lost := epa_lost_targets target_names returned_names
  if lost.isEmpty then EpaLog.allQueried else EpaLog.warnLost lost

/-- polars with_columns(pl.lit(v).alias(c)): set column c to the
constant v in every row, appending the column when it is new. -/
def with_column_lit (f : Frame) (c : String) (v : Value) : Frame :=
  { cols := if c ∈ f.cols then f.cols else f.cols ++ [c],
    rows := f.rows.map (fun r => dictSet r c v) }

/-- Python s.split("."), written over the character list: split at
every dot; the empty string yields [""]. -/
def pySplitDotAux : List Char → List Char → List String
  | [], acc => [acc.reverse.asString]
  | c :: rest, acc =>
    if c = '.' then acc.reverse.asString :: pySplitDotAux rest []
    else pySplitDotAux rest (c :: acc)

/-- Python filename.split("."). -/
def pySplitDot (s : String) : List String := pySplitDotAux s.data []

/-- Python s[-1]: the last character of a string; an IndexError on the
empty string. -/
def pyLastChar (s : String) : Except PyErr Char :=
  match s.data.getLast? with
  | none => Except.error PyErr.indexError
  | some c => Except.ok c

/-- Python int(c) on a one-character string: its digit value, or a
ValueError when the character is not a digit. -/
def pyIntOfChar (c : Char) : Except PyErr Int :=
  if c.isDigit then Except.ok ((c.toNat : Int) - 48)
  else Except.error PyErr.valueError

/-- src/main.py read_jwst_cycle: the cycle number is the integer value
of the last character of filename.split(".")[0]; the file contents
(here passed in as a frame, standing for pl.read_csv) are tagged with a
constant jwst_cycle column. -/
def read_jwst_cycle (filename : String) (file_contents : Frame) :
    Except PyErr (Frame × Int) := do
  let c ← pyLastChar ((pySplitDot filename).headD "")
  let cycle_number ← pyIntOfChar c
  let jwst_frame := with_column_lit file_contents "jwst_cycle"
    (Value.vInt cycle_number)
  Except.ok (jwst_frame, cycle_number)

/-- Modelled from the spec: the final character before the .csv
extension of a filename, the character the spec designates as the cycle
digit.  This definition follows the claim's words and is compared
against read_jwst_cycle, which is translated from the source. -/
def spec_finalCharBeforeCsvExt (filename : String) : Option Char :=
  let cs := filename.data
  if cs.drop (cs.length - 4) = ['.', 'c', 's', 'v'] ∧ 4 ≤ cs.length then
    (cs.take (cs.length - 4)).getLast?
  else none

/-- Comma-joined concatenation with no trailing comma, the shape the
spec requires of the selection and filter lists. -/
def commaJoin : List String → String
  | [] => ""
  | [n] => n
  | n :: m :: rest => n ++ "," ++ commaJoin (m :: rest)

/-- Whether a cell value is a string (a typed name column holds only
strings). -/
def isStrVal : Value → Bool
  | Value.vStr _ => true
  | _ => false

/-- The remote rows whose planet_name cell equals v (structural
equality); for string-valued names this coincides with the polars
predicate filter that update_rows performs. -/
def matchingRows (child : Frame) (v : Value) : List Row :=
  child.rows.filter (fun r => nameOfD r == v)

/-- Whether a catalog value is a (name, unit) pair. -/
def isPhysSpec : ParamSpec → Bool
  | ParamSpec.phys _ _ => true
  | ParamSpec.ident _ => false

/-- The expansion of one catalog entry as the spec describes it: an
exception (identity) entry stays a single pair; a physical-quantity
entry yields the four assign_query_parameters pairs. -/
def expandEntry (kv : String × ParamSpec) : List (String × ParamSpec) :=
  if kv.1 ∈ epaExceptions then [kv]
  else
    match kv.2 with
    | ParamSpec.phys n u => assign_query_parameters kv.1 n u
    | ParamSpec.ident _ => []

/-- The merged row produced for one (already extended) local row: a
zero-match leaves the row unchanged, otherwise the single matching
remote row's columns are written over it.  Under the well-formedness
and string-name hypotheses of the merge theorems this characterizes
update_rows on the success path. -/
def procRow (child : Frame) (row : Row) : Row :=
  match matchingRows child (nameOfD row) with
  | [] => row
  | r :: _ => dictUpdate row r

/-! Basic dictionary lemmas. -/

theorem mem_dictKeys {r : Row} {k : String} : k ∈ dictKeys r ↔ ∃ p ∈ r, p.1 = k := by
  simp [dictKeys, List.mem_map]

theorem any_key_iff (r : Row) (k : String) :
    r.any (fun p => p.1 == k) = true ↔ k ∈ dictKeys r := by
  simp [List.any_eq_true, mem_dictKeys]

theorem lookup_map_replace_ne (t : Row) (k k' : String) (v : Value) (h : k' ≠ k) :
    List.lookup k' (t.map (fun p => if p.1 == k then (k, v) else p)) =
      List.lookup k' t := by
  induction t with
  | nil => simp
  | cons p t ih =>
    obtain ⟨a, b⟩ := p
    by_cases hp : a = k
    · subst hp
      have hf : (k' == a) = false := by simpa using h
      simp only [List.map_cons, List.lookup_cons, beq_self_eq_true, if_true, hf]
      simpa using ih
    · have hf2 : (a == k) = false := by simpa using hp
      simp only [List.map_cons, hf2, Bool.false_eq_true, if_false, List.lookup_cons]
      cases hkk : k' == a
      · simpa using ih
      · rfl

theorem lookup_map_replace_self (t : Row) (k : String) (v : Value)
    (h : t.any (fun p => p.1 == k) = true) :
    List.lookup k (t.map (fun p => if p.1 == k then (k, v) else p)) = some v := by
  induction t with
  | nil => simp at h
  | cons p t ih =>
    obtain ⟨a, b⟩ := p
    by_cases hp : a = k
    · subst hp
      simp [List.lookup_cons]
    · have hf2 : (a == k) = false := by simpa using hp
      have hf3 : (k == a) = false := by simpa using Ne.symm hp
      have h' : t.any (fun p => p.1 == k) = true := by
        simpa [List.any_cons, hf2] using h
      simp only [List.map_cons, hf2, Bool.false_eq_true, if_false, List.lookup_cons, hf3]
      exact ih h'

theorem lookup_dictSet_self (r : Row) (k : String) (v : Value) :
    List.lookup k (dictSet r k v) = some v := by
  unfold dictSet
  by_cases h : r.any (fun p => p.1 == k) = true
  · simp only [h, if_true]
    exact lookup_map_replace_self r k v h
  · have hnone : List.lookup k r = none := by
      rw [List.lookup_eq_none_iff]
      intro p hp
      simp only [bne_iff_ne, ne_eq]
      intro hk
      exact h ((any_key_iff r k).mpr (mem_dictKeys.mpr ⟨p, hp, hk.symm⟩))
    simp [h, List.lookup_append, hnone]

theorem lookup_dictSet_ne (r : Row) {k k' : String} (v : Value) (h : k' ≠ k) :
    List.lookup k' (dictSet r k v) = List.lookup k' r := by
  unfold dictSet
  by_cases hany : r.any (fun p => p.1 == k) = true
  · simp only [hany, if_true]
    exact lookup_map_replace_ne r k k' v h
  · have hf : (k' == k) = false := by simpa using h
    simp [hany, List.lookup_append, List.lookup_cons, hf]

theorem dictKeys_dictSet_of_mem {r : Row} {k : String} (v : Value)
    (h : k ∈ dictKeys r) : dictKeys (dictSet r k v) = dictKeys r := by
  unfold dictSet
  rw [if_pos ((any_key_iff r k).mpr h)]
  unfold dictKeys
  rw [List.map_map]
  apply List.map_congr_left
  intro p _
  by_cases hp : p.1 = k
  · simp [hp]
  · simp [hp]

theorem dictKeys_dictSet_of_not_mem {r : Row} {k : String} (v : Value)
    (h : k ∉ dictKeys r) : dictKeys (dictSet r k v) = dictKeys r ++ [k] := by
  unfold dictSet
  rw [if_neg (fun hh => h ((any_key_iff r k).mp hh))]
  simp [dictKeys]

theorem dictKeys_dictUpdate_of_subset (other : Row) (r : Row)
    (h : ∀ k ∈ dictKeys other, k ∈ dictKeys r) :
    dictKeys (dictUpdate r other) = dictKeys r := by
  induction other generalizing r with
  | nil => rfl
  | cons p t ih =>
    have hp : p.1 ∈ dictKeys r := h p.1 (by simp [dictKeys])
    have hk : dictKeys (dictSet r p.1 p.2) = dictKeys r :=
      dictKeys_dictSet_of_mem p.2 hp
    have hsub : ∀ k ∈ dictKeys t, k ∈ dictKeys (dictSet r p.1 p.2) := by
      intro k hmem
      rw [hk]
      refine h k ?_
      simp only [dictKeys, List.map_cons, List.mem_cons]
      exact Or.inr (by simpa [dictKeys] using hmem)
    calc dictKeys (dictUpdate r (p :: t))
        = dictKeys (dictUpdate (dictSet r p.1 p.2) t) := rfl
      _ = dictKeys (dictSet r p.1 p.2) := ih _ hsub
      _ = dictKeys r := hk

theorem lookup_dictUpdate_of_not_mem (other : Row) (r : Row) {k : String}
    (h : k ∉ dictKeys other) :
    List.lookup k (dictUpdate r other) = List.lookup k r := by
  induction other generalizing r with
  | nil => rfl
  | cons p t ih =>
    have hne : k ≠ p.1 := by
      intro hh
      exact h (by simp [dictKeys, hh])
    have ht : k ∉ dictKeys t := by
      intro hh
      exact h (by simp [dictKeys] at hh ⊢; right; exact hh)
    unfold dictUpdate
    simp only [List.foldl_cons]
    have := ih (dictSet r p.1 p.2) ht
    unfold dictUpdate at this
    rw [this, lookup_dictSet_ne r p.2 hne]

theorem lookup_dictUpdate_of_lookup (other : Row) (r : Row) {k : String}
    {v : Value} (hnd : (dictKeys other).Nodup)
    (h : List.lookup k other = some v) :
    List.lookup k (dictUpdate r other) = some v := by
  induction other generalizing r with
  | nil => simp at h
  | cons p t ih =>
    obtain ⟨a, b⟩ := p
    simp only [dictKeys, List.map_cons, List.nodup_cons] at hnd
    by_cases hk : k = a
    · subst hk
      have hv : b = v := by
        simpa [List.lookup_cons] using h
      subst hv
      have hknot : k ∉ dictKeys t := by
        intro hh
        exact hnd.1 (by simpa [dictKeys] using hh)
      unfold dictUpdate
      simp only [List.foldl_cons]
      have := lookup_dictUpdate_of_not_mem t (dictSet r k b) hknot
      unfold dictUpdate at this
      rw [this, lookup_dictSet_self]
    · have hf : (k == a) = false := by simpa using hk
      have ht : List.lookup k t = some v := by
        simpa [List.lookup_cons, hf] using h
      unfold dictUpdate
      simp only [List.foldl_cons]
      have := ih (dictSet r a b) (by simpa [dictKeys] using hnd.2) ht
      unfold dictUpdate at this
      rw [this]

theorem lookup_extendRow_of_not_mem (queried : List String) (r : Row)
    {k : String} (h : k ∉ queried) :
    List.lookup k (extendRow queried r) = List.lookup k r := by
  induction queried generalizing r with
  | nil => rfl
  | cons c t ih =>
    have hne : k ≠ c := fun hh => h (by simp [hh])
    have ht : k ∉ t := fun hh => h (by simp [hh])
    unfold extendRow
    simp only [List.foldl_cons]
    have := ih (dictSet r c Value.vNaN) ht
    unfold extendRow at this
    rw [this, lookup_dictSet_ne r Value.vNaN hne]

theorem dictKeys_extendRow (queried : List String) (r : Row)
    (hnd : queried.Nodup) (hdisj : ∀ c ∈ queried, c ∉ dictKeys r) :
    dictKeys (extendRow queried r) = dictKeys r ++ queried := by
  induction queried generalizing r with
  | nil => simp [extendRow]
  | cons c t ih =>
    simp only [List.nodup_cons] at hnd
    have hc : c ∉ dictKeys r := hdisj c (by simp)
    have hkeys : dictKeys (dictSet r c Value.vNaN) = dictKeys r ++ [c] :=
      dictKeys_dictSet_of_not_mem Value.vNaN hc
    unfold extendRow
    simp only [List.foldl_cons]
    have := ih (dictSet r c Value.vNaN) hnd.2 (fun c' hc' => by
      rw [hkeys]
      simp only [List.mem_append, List.mem_singleton]
      rintro (hh | hh)
      · exact hdisj c' (by simp [hc']) hh
      · exact hnd.1 (hh ▸ hc'))
    unfold extendRow at this
    rw [this, hkeys, List.append_assoc]
    rfl

theorem lookup_extendRow_mem (queried : List String) (r : Row)
    {k : String} (hnd : queried.Nodup) (h : k ∈ queried) :
    List.lookup k (extendRow queried r) = some Value.vNaN := by
  induction queried generalizing r with
  | nil => simp at h
  | cons c t ih =>
    simp only [List.nodup_cons] at hnd
    by_cases hk : k = c
    · subst hk
      unfold extendRow
      simp only [List.foldl_cons]
      have := lookup_extendRow_of_not_mem t (dictSet r k Value.vNaN) hnd.1
      unfold extendRow at this
      rw [this, lookup_dictSet_self]
    · have ht : k ∈ t := by
        rcases List.mem_cons.mp h with hh | hh
        · exact absurd hh hk
        · exact hh
      unfold extendRow
      simp only [List.foldl_cons]
      have := ih (dictSet r c Value.vNaN) hnd.2 ht
      unfold extendRow at this
      rw [this]

/-! String lemmas for the query builder. -/

theorem data_asString (l : List Char) : (List.asString l).data = l := rfl

theorem pyDropLast_data (s : String) : (pyDropLast s).data = s.data.dropLast := rfl

theorem sfl_fold_data (l : List String) (q : String) (acc : String) :
    (l.foldl (fun a n => a ++ q ++ n ++ q ++ ",") acc).data
      = acc.data ++ (l.foldl (fun a n => a ++ q ++ n ++ q ++ ",") "").data := by
  induction l generalizing acc with
  | nil => simp
  | cons n t ih =>
    simp only [List.foldl_cons, String.empty_append]
    rw [ih, ih (q ++ n ++ q ++ ",")]
    simp [String.data_append, List.append_assoc]

theorem sfl_fold_data_ne_nil (l : List String) (q : String) (h : l ≠ []) :
    (l.foldl (fun a n => a ++ q ++ n ++ q ++ ",") "").data ≠ [] := by
  cases l with
  | nil => exact absurd rfl h
  | cons n t =>
    intro hh
    simp only [List.foldl_cons, String.empty_append] at hh
    rw [sfl_fold_data t q (q ++ n ++ q ++ ",")] at hh
    simp [String.data_append, List.append_eq_nil] at hh

theorem sfl_nil (q : String) : string_from_list [] q = "" := rfl

theorem sfl_singleton (n q : String) : string_from_list [n] q = q ++ n ++ q := by
  apply String.ext
  show ((("" ++ q ++ n ++ q ++ ",").data).dropLast) = (q ++ n ++ q).data
  simp [String.data_append]

theorem sfl_cons (n : String) (l : List String) (q : String) (h : l ≠ []) :
    string_from_list (n :: l) q =
      q ++ n ++ q ++ "," ++ string_from_list l q := by
  apply String.ext
  show (((n :: l).foldl (fun a m => a ++ q ++ m ++ q ++ ",") "").data).dropLast
    = (q ++ n ++ q ++ "," ++ string_from_list l q).data
  simp only [List.foldl_cons, String.empty_append]
  rw [sfl_fold_data l q (q ++ n ++ q ++ ",")]
  rw [List.dropLast_append_of_ne_nil _ (sfl_fold_data_ne_nil l q h)]
  simp [String.data_append, string_from_list, pyDropLast_data, List.append_assoc]

theorem string_from_list_eq_commaJoin (l : List String) (q : String) :
    string_from_list l q = commaJoin (l.map (fun n => q ++ n ++ q)) := by
  induction l with
  | nil => rfl
  | cons n t ih =>
    cases t with
    | nil => simpa [commaJoin] using sfl_singleton n q
    | cons m r =>
      rw [sfl_cons n (m :: r) q (by simp), ih]
      simp [commaJoin]

/-- C6: for every non-empty list of target names and every expanded
catalog, construct_adql_query selects exactly the catalog's remote
identifiers, comma-joined without wrapping quotes, from the table
pscomppars, and its filter clause is WHERE pl_name IN (...) with the
names single-quoted and comma-joined with no trailing comma; for the
names 55 Cnc e and GJ 1214 b the string contains the clause
WHERE pl_name IN ('55 Cnc e','GJ 1214 b') verbatim. -/
theorem c6_query_builder (planet_names : List String)
    (catalog : List (String × ParamSpec)) (hne : planet_names ≠ []) :
    construct_adql_query planet_names catalog =
      "SELECT " ++ commaJoin (catalog.map Prod.fst) ++ " FROM pscomppars " ++
        ("WHERE pl_name IN (" ++
          commaJoin (planet_names.map (fun n => squote ++ n ++ squote)) ++ ")") ∧
    (∃ stem, construct_adql_query ["55 Cnc e", "GJ 1214 b"]
        [("pl_name", ParamSpec.ident "planet_name")] =
      stem ++ ("WHERE pl_name IN (" ++ squote ++ "55 Cnc e" ++ squote ++ "," ++
        squote ++ "GJ 1214 b" ++ squote ++ ")")) := by
  constructor
  · unfold construct_adql_query
    rw [string_from_list_eq_commaJoin, string_from_list_eq_commaJoin]
    simp only [String.empty_append, String.append_empty]
    rw [List.map_id']
  · exact ⟨"SELECT pl_name FROM pscomppars ", by decide⟩

/-- Witness for c6_query_builder at a concrete input. -/
theorem c6_query_builder_witness :
    (["55 Cnc e", "GJ 1214 b"] : List String) ≠ [] ∧
    (construct_adql_query ["55 Cnc e", "GJ 1214 b"]
        [("pl_name", ParamSpec.ident "planet_name")] =
      "SELECT " ++
        commaJoin ([("pl_name", ParamSpec.ident "planet_name")].map Prod.fst) ++
        " FROM pscomppars " ++
        ("WHERE pl_name IN (" ++
          commaJoin ((["55 Cnc e", "GJ 1214 b"] : List String).map
            (fun n => squote ++ n ++ squote)) ++ ")") ∧
      (∃ stem, construct_adql_query ["55 Cnc e", "GJ 1214 b"]
          [("pl_name", ParamSpec.ident "planet_name")] =
        stem ++ ("WHERE pl_name IN (" ++ squote ++ "55 Cnc e" ++ squote ++ "," ++
          squote ++ "GJ 1214 b" ++ squote ++ ")"))) :=
  ⟨by decide, c6_query_builder ["55 Cnc e", "GJ 1214 b"]
    [("pl_name", ParamSpec.ident "planet_name")] (by decide)⟩

/-! Lemmas for the catalog expansion. -/

theorem dictSetP_append (d : List (String × ParamSpec)) (k : String)
    (v : ParamSpec) (h : ∀ p ∈ d, p.1 ≠ k) :
    dictSetP d k v = d ++ [(k, v)] := by
  have hfalse : d.any (fun p => p.1 == k) = false := by
    rw [List.any_eq_false]
    intro p hp
    simpa using h p hp
  simp [dictSetP, hfalse]

theorem dictMergeP_append (new d : List (String × ParamSpec))
    (h : ∀ p ∈ new, ∀ q ∈ d, q.1 ≠ p.1) (hnd : (new.map Prod.fst).Nodup) :
    dictMergeP d new = d ++ new := by
  induction new generalizing d with
  | nil => simp [dictMergeP]
  | cons p t ih =>
    simp only [List.map_cons, List.nodup_cons] at hnd
    have hset : dictSetP d p.1 p.2 = d ++ [p] :=
      dictSetP_append d p.1 p.2 (fun q hq => h p (by simp) q hq)
    have hdisj : ∀ r ∈ t, ∀ q ∈ d ++ [p], q.1 ≠ r.1 := by
      intro r hr q hq
      rcases List.mem_append.mp hq with hq | hq
      · exact h r (by simp [hr]) q hq
      · have hqp : q = p := by simpa using hq
        subst hqp
        intro hh
        exact hnd.1 (hh ▸ List.mem_map_of_mem Prod.fst hr)
    calc dictMergeP d (p :: t)
        = dictMergeP (dictSetP d p.1 p.2) t := rfl
      _ = dictMergeP (d ++ [p]) t := by rw [hset]
      _ = (d ++ [p]) ++ t := ih (d ++ [p]) hdisj hnd.2
      _ = d ++ p :: t := by simp

theorem create_cat_foldl (ps : List (String × ParamSpec))
    (acc : List (String × ParamSpec))
    (hty : ∀ kv ∈ ps, kv.1 ∉ epaExceptions → isPhysSpec kv.2 = true)
    (hnd : ((acc ++ ps.flatMap expandEntry).map Prod.fst).Nodup) :
    ps.foldlM
      (fun finalised kv =>
        if kv.1 ∈ epaExceptions then
          Except.ok (dictMergeP finalised [kv])
        else do
          let p ← unpackPair kv.2
          Except.ok (dictMergeP finalised
            (assign_query_parameters kv.1 p.1 p.2)))
      acc = Except.ok (acc ++ ps.flatMap expandEntry) := by
  induction ps generalizing acc with
  | nil => simp only [List.foldlM_nil, List.flatMap_nil, List.append_nil]; rfl
  | cons kv t ih =>
    have hnd' : ((acc.map Prod.fst ++
        ((expandEntry kv).map Prod.fst ++
          (t.flatMap expandEntry).map Prod.fst))).Nodup := by
      simpa [List.map_append] using hnd
    obtain ⟨hndA, hndBC, hdisjABC⟩ := List.nodup_append.mp hnd'
    obtain ⟨hndB, hndC, hdisjBC⟩ := List.nodup_append.mp hndBC
    have hmerge : dictMergeP acc (expandEntry kv) = acc ++ expandEntry kv := by
      apply dictMergeP_append
      · intro p hp q hq hh
        exact hdisjABC (List.mem_map_of_mem Prod.fst hq)
          (List.mem_append.mpr (Or.inl (hh ▸ List.mem_map_of_mem Prod.fst hp)))
      · exact hndB
    have hbind : ∀ {α β : Type} (x : α) (g : α → Except PyErr β),
        (Except.ok x >>= g) = g x := fun x g => rfl
    have hihnd : ((acc ++ expandEntry kv ++ t.flatMap expandEntry).map
        Prod.fst).Nodup := by
      simpa [List.map_append, List.append_assoc] using hnd'
    have hrec := ih (acc ++ expandEntry kv)
      (fun p hp hq => hty p (by simp [hp]) hq) hihnd
    by_cases hx : kv.1 ∈ epaExceptions
    · have hexp : expandEntry kv = [kv] := by simp [expandEntry, hx]
      rw [List.foldlM_cons]
      simp only [hx, if_pos]
      rw [hbind]
      rw [hexp] at hmerge hrec
      rw [hmerge, hrec]
      simp [hexp, List.append_assoc]
    · have hphys := hty kv (by simp) hx
      rcases hspec : kv.2 with s | ⟨n, u⟩
      · rw [hspec] at hphys
        simp [isPhysSpec] at hphys
      · rw [List.foldlM_cons]
        simp only [hx, if_neg, not_false_iff]
        have hunpack : unpackPair kv.2 = Except.ok (n, u) := by
          rw [hspec]; rfl
        rw [hunpack]
        have hexp : expandEntry kv = assign_query_parameters kv.1 n u := by
          simp [expandEntry, hx, hspec]
        rw [hexp] at hmerge hrec
        rw [hbind, hbind, hmerge, hrec]
        simp [hexp, List.append_assoc]

/-- C5: the catalog expansion maps each identity entry (an exception
key: pl_name, sy_pnum, sy_snum, hostname, pl_letter) to that single
identifier-to-local-name pair, and each physical-quantity entry
(name, unit) to exactly four pairs: the bare identifier to name_unit,
identifier err1 to name_errpos, identifier err2 to name_errneg and
identifier _reflink to name_ref; in particular the entry pl_rade with
(radius, rearth) expands to exactly the four pairs pl_rade, pl_radeerr1,
pl_radeerr2, pl_rade_reflink and nothing else. -/
theorem c5_catalog_expansion (ps : List (String × ParamSpec))
    (hty : ∀ kv ∈ ps, kv.1 ∉ epaExceptions → isPhysSpec kv.2 = true)
    (hnd : ((ps.flatMap expandEntry).map Prod.fst).Nodup) :
    create_query_parameter_catalogue ps = Except.ok (ps.flatMap expandEntry) ∧
    (∀ kv ∈ ps, kv.1 ∈ epaExceptions → expandEntry kv = [kv]) ∧
    (∀ k n u, k ∉ epaExceptions →
      expandEntry (k, ParamSpec.phys n u) =
        [(k, ParamSpec.ident (n ++ "_" ++ u)),
         (k ++ "err1", ParamSpec.ident (n ++ "_errpos")),
         (k ++ "err2", ParamSpec.ident (n ++ "_errneg")),
         (k ++ "_reflink", ParamSpec.ident (n ++ "_ref"))]) ∧
    create_query_parameter_catalogue
        [("pl_rade", ParamSpec.phys "radius" "rearth")] =
      Except.ok [("pl_rade", ParamSpec.ident "radius_rearth"),
        ("pl_radeerr1", ParamSpec.ident "radius_errpos"),
        ("pl_radeerr2", ParamSpec.ident "radius_errneg"),
        ("pl_rade_reflink", ParamSpec.ident "radius_ref")] := by
  refine ⟨?_, ?_, ?_, by decide⟩
  · have h := create_cat_foldl ps [] hty (by simpa using hnd)
    simpa [create_query_parameter_catalogue] using h
  · intro kv _ hmem
    simp [expandEntry, hmem]
  · intro k n u hk
    simp [expandEntry, assign_query_parameters, hk]

/-- Witness for c5_catalog_expansion at the source's QUERY_PARAMETERS. -/
theorem c5_catalog_expansion_witness :
    ((∀ kv ∈ QUERY_PARAMETERS, kv.1 ∉ epaExceptions → isPhysSpec kv.2 = true) ∧
      ((QUERY_PARAMETERS.flatMap expandEntry).map Prod.fst).Nodup) ∧
    (create_query_parameter_catalogue QUERY_PARAMETERS =
        Except.ok (QUERY_PARAMETERS.flatMap expandEntry) ∧
      (∀ kv ∈ QUERY_PARAMETERS, kv.1 ∈ epaExceptions → expandEntry kv = [kv]) ∧
      (∀ k n u, k ∉ epaExceptions →
        expandEntry (k, ParamSpec.phys n u) =
          [(k, ParamSpec.ident (n ++ "_" ++ u)),
           (k ++ "err1", ParamSpec.ident (n ++ "_errpos")),
           (k ++ "err2", ParamSpec.ident (n ++ "_errneg")),
           (k ++ "_reflink", ParamSpec.ident (n ++ "_ref"))]) ∧
      create_query_parameter_catalogue
          [("pl_rade", ParamSpec.phys "radius" "rearth")] =
        Except.ok [("pl_rade", ParamSpec.ident "radius_rearth"),
          ("pl_radeerr1", ParamSpec.ident "radius_errpos"),
          ("pl_radeerr2", ParamSpec.ident "radius_errneg"),
          ("pl_rade_reflink", ParamSpec.ident "radius_ref")]) :=
  ⟨⟨by decide, by decide⟩,
    c5_catalog_expansion QUERY_PARAMETERS (by decide) (by decide)⟩

/-! General helpers for Except and mapM. -/

theorem except_ok_bind {α β : Type} (x : α) (g : α → Except PyErr β) :
    (Except.ok x >>= g) = g x := rfl

theorem mapM_ok_forall₂ {α β : Type} {f : α → Except PyErr β} :
    ∀ {l : List α} {out : List β}, l.mapM f = Except.ok out →
      List.Forall₂ (fun a b => f a = Except.ok b) l out := by
  intro l
  induction l with
  | nil =>
    intro out h
    simp only [List.mapM_nil] at h
    cases h
    exact List.Forall₂.nil
  | cons a t ih =>
    intro out h
    rw [List.mapM_cons] at h
    cases hfa : f a with
    | error e => rw [hfa] at h; cases h
    | ok b =>
      rw [hfa] at h
      cases hml : t.mapM f with
      | error e => rw [hml] at h; cases h
      | ok bs =>
        rw [hml] at h
        cases h
        exact List.Forall₂.cons hfa (ih hml)

theorem mapM_eq_ok_of_forall {α β : Type} {f : α → Except PyErr β}
    {g : α → β} :
    ∀ (l : List α), (∀ a ∈ l, f a = Except.ok (g a)) →
      l.mapM f = Except.ok (l.map g) := by
  intro l
  induction l with
  | nil => intro _; rfl
  | cons a t ih =>
    intro h
    rw [List.mapM_cons, h a (by simp), ih (fun a ha => h a (by simp [ha]))]
    rfl

theorem forall₂_mem_right {α β : Type} {R : α → β → Prop} :
    ∀ {l : List α} {out : List β}, List.Forall₂ R l out →
      ∀ b ∈ out, ∃ a ∈ l, R a b := by
  intro l out h
  induction h with
  | nil => intro b hb; simp at hb
  | cons hR hF ih =>
    intro b hb
    rcases List.mem_cons.mp hb with rfl | hb
    · exact ⟨_, by simp, hR⟩
    · obtain ⟨a, ha, hr⟩ := ih b hb
      exact ⟨a, by simp [ha], hr⟩

/-! Lemmas for the lost-target check. -/

theorem mem_setxor1d (a b : List String) (x : String) :
    x ∈ setxor1d a b ↔ (x ∈ a ∧ x ∉ b) ∨ (x ∈ b ∧ x ∉ a) := by
  unfold setxor1d
  rw [(List.perm_insertionSort strOrder _).mem_iff]
  simp [List.mem_dedup, List.mem_append, List.mem_filter, List.elem_iff]

/-- C7 counterexample: the claim states the logged list names exactly
the requested targets absent from the response, no more and no fewer.
The code computes numpy setxor1d, the symmetric difference: for
requested A,B and a response containing A and C, the absent requested
targets are exactly B, yet the logged list is B,C — the never-requested
response name C is also logged, so the claim fails. -/
theorem c7_counterexample :
    epa_sanity_check ["A", "B"] ["A", "C"] = EpaLog.warnLost ["B", "C"] ∧
    EpaLog.warnLost ["B", "C"] ≠ EpaLog.warnLost ["B"] := by
  exact ⟨by decide, by decide⟩

/-- C7 amended: the post-response check raises no exception (it is a
total computation); the list it logs is the sorted symmetric difference
of requested and returned names — a name is logged exactly when it was
requested and absent from the response OR returned without having been
requested; when the difference is empty an all-queried message is
logged instead; whenever every returned name was requested (as with
requested A,B and response A) the logged list is exactly the absent
requested targets, here B. -/
theorem c7_lost_targets (target_names returned_names : List String) :
    (∀ x, x ∈ epa_lost_targets target_names returned_names ↔
      ((x ∈ target_names ∧ x ∉ returned_names) ∨
       (x ∈ returned_names ∧ x ∉ target_names))) ∧
    (epa_lost_targets target_names returned_names = [] →
      epa_sanity_check target_names returned_names = EpaLog.allQueried) ∧
    (epa_lost_targets target_names returned_names ≠ [] →
      epa_sanity_check target_names returned_names =
        EpaLog.warnLost (epa_lost_targets target_names returned_names)) ∧
    epa_sanity_check ["A", "B"] ["A"] = EpaLog.warnLost ["B"] := by
  refine ⟨mem_setxor1d _ _, ?_, ?_, by decide⟩
  · intro h
    simp [epa_sanity_check, h]
  · intro h
    simp [epa_sanity_check, List.isEmpty_iff, h]

/-- Witness for c7_lost_targets at a concrete input. -/
theorem c7_lost_targets_witness :
    epa_lost_targets ["A", "B"] ["A"] ≠ [] ∧
    epa_sanity_check ["A", "B"] ["A"] =
      EpaLog.warnLost (epa_lost_targets ["A", "B"] ["A"]) :=
  ⟨by decide, (c7_lost_targets ["A", "B"] ["A"]).2.2.1 (by decide)⟩

/-- C9 counterexample: the claim states that whenever the final
character before the .csv extension is a digit d, the parsed cycle is
d.  The code instead takes the last character of the portion before the
FIRST dot: for v2.5_cycle3.csv the spec-designated digit is 3, yet the
code parses 2 and tags every row with 2. -/
theorem c9_counterexample :
    spec_finalCharBeforeCsvExt "v2.5_cycle3.csv" = some '3' ∧
    ('3').isDigit = true ∧
    read_jwst_cycle "v2.5_cycle3.csv"
        (Frame.mk ["planet_name"] [[("planet_name", Value.vStr "X")]]) =
      Except.ok (Frame.mk ["planet_name", "jwst_cycle"]
        [[("planet_name", Value.vStr "X"), ("jwst_cycle", Value.vInt 2)]], 2) ∧
    (2 : Int) ≠ 3 := by
  exact ⟨by decide, by decide, by decide, by decide⟩

/-- C9 amended: for every filename whose portion before the FIRST dot
ends in a digit d (for a filename with a single dot, such as
cycle1.csv, this is exactly the final character before the .csv
extension), read_jwst_cycle parses the cycle identifier as the integer
value of d, keeps the row count, and tags every row's jwst_cycle column
with that same integer; in particular cycle1.csv yields a cycle column
uniformly set to 1. -/
theorem c9_read_cycle (filename : String) (contents : Frame) (c : Char)
    (hlast : ((pySplitDot filename).headD "").data.getLast? = some c)
    (hdigit : c.isDigit = true) :
    (∃ tagged : Frame,
      read_jwst_cycle filename contents =
        Except.ok (tagged, (c.toNat : Int) - 48) ∧
      tagged.rows.length = contents.rows.length ∧
      ∀ r ∈ tagged.rows,
        List.lookup "jwst_cycle" r =
          some (Value.vInt ((c.toNat : Int) - 48))) ∧
    read_jwst_cycle "cycle1.csv"
        (Frame.mk ["planet_name"] [[("planet_name", Value.vStr "Kepler-42 b")]]) =
      Except.ok (Frame.mk ["planet_name", "jwst_cycle"]
        [[("planet_name", Value.vStr "Kepler-42 b"),
          ("jwst_cycle", Value.vInt 1)]], 1) := by
  constructor
  · refine ⟨with_column_lit contents "jwst_cycle"
      (Value.vInt ((c.toNat : Int) - 48)), ?_, ?_, ?_⟩
    · unfold read_jwst_cycle pyLastChar pyIntOfChar
      rw [hlast]
      rw [except_ok_bind]
      simp only [hdigit, if_true]
      rw [except_ok_bind]
    · simp [with_column_lit]
    · intro r hr
      simp only [with_column_lit, List.mem_map] at hr
      obtain ⟨r0, _, rfl⟩ := hr
      exact lookup_dictSet_self r0 "jwst_cycle" (Value.vInt ((c.toNat : Int) - 48))
  · decide

/-- Witness for c9_read_cycle at the concrete file cycle1.csv. -/
theorem c9_read_cycle_witness :
    ((pySplitDot "cycle1.csv").headD "").data.getLast? = some '1' ∧
    Char.isDigit '1' = true ∧
    ((∃ tagged : Frame,
      read_jwst_cycle "cycle1.csv"
          (Frame.mk ["planet_name"] [[("planet_name", Value.vStr "Kepler-42 b")]]) =
        Except.ok (tagged, (('1').toNat : Int) - 48) ∧
      tagged.rows.length =
        (Frame.mk ["planet_name"]
          [[("planet_name", Value.vStr "Kepler-42 b")]]).rows.length ∧
      ∀ r ∈ tagged.rows,
        List.lookup "jwst_cycle" r =
          some (Value.vInt ((('1').toNat : Int) - 48))) ∧
    read_jwst_cycle "cycle1.csv"
        (Frame.mk ["planet_name"] [[("planet_name", Value.vStr "Kepler-42 b")]]) =
      Except.ok (Frame.mk ["planet_name", "jwst_cycle"]
        [[("planet_name", Value.vStr "Kepler-42 b"),
          ("jwst_cycle", Value.vInt 1)]], 1)) :=
  ⟨by decide, by decide,
    c9_read_cycle "cycle1.csv"
      (Frame.mk ["planet_name"] [[("planet_name", Value.vStr "Kepler-42 b")]])
      '1' (by decide) (by decide)⟩

/-- C8: the reconciler's per-row update never raises for a row whose
name matches no remote row — with the name column present on both
sides, a zero-match lookup returns the row unchanged — and it does
raise when the name column is absent: a row dictionary without the
planet_name key raises KeyError, and a remote frame without the
planet_name column raises ColumnNotFoundError. -/
theorem c8_failure_semantics (row : Row) (child : Frame) :
    (∀ v, List.lookup "planet_name" row = some v →
      "planet_name" ∈ child.cols →
      filterMatches child.rows v = Except.ok [] →
      update_rows row child = Except.ok row) ∧
    (List.lookup "planet_name" row = none →
      update_rows row child = Except.error (PyErr.keyError "planet_name")) ∧
    (∀ v, List.lookup "planet_name" row = some v →
      "planet_name" ∉ child.cols →
      update_rows row child =
        Except.error (PyErr.columnNotFoundError "planet_name")) := by
  refine ⟨?_, ?_, ?_⟩
  · intro v hv hcol hfilter
    unfold update_rows
    rw [hv]
    simp only [hcol, if_true, hfilter]
  · intro hnone
    unfold update_rows
    rw [hnone]
  · intro v hv hcol
    unfold update_rows
    rw [hv]
    simp only [hcol, if_false]

/-- Witness for c8_failure_semantics at concrete inputs. -/
theorem c8_failure_semantics_witness :
    update_rows [("planet_name", Value.vStr "A")]
        (Frame.mk ["planet_name"] []) =
      Except.ok [("planet_name", Value.vStr "A")] ∧
    update_rows [] (Frame.mk ["planet_name"] []) =
      Except.error (PyErr.keyError "planet_name") ∧
    update_rows [("planet_name", Value.vStr "A")] (Frame.mk [] []) =
      Except.error (PyErr.columnNotFoundError "planet_name") :=
  ⟨(c8_failure_semantics [("planet_name", Value.vStr "A")]
      (Frame.mk ["planet_name"] [])).1 (Value.vStr "A")
      (by decide) (by decide) (by decide),
   (c8_failure_semantics [] (Frame.mk ["planet_name"] [])).2.1 (by decide),
   (c8_failure_semantics [("planet_name", Value.vStr "A")]
      (Frame.mk [] [])).2.2 (Value.vStr "A") (by decide) (by decide)⟩

theorem except_error_bind {α β : Type} (e : PyErr) (g : α → Except PyErr β) :
    (Except.error e >>= g) = (Except.error e : Except PyErr β) := rfl

theorem forall₂_mem_left {α β : Type} {R : α → β → Prop} :
    ∀ {l : List α} {out : List β}, List.Forall₂ R l out →
      ∀ a ∈ l, ∃ b ∈ out, R a b := by
  intro l out h
  induction h with
  | nil => intro a ha; simp at ha
  | cons hR hF ih =>
    intro a ha
    rcases List.mem_cons.mp ha with rfl | ha
    · exact ⟨_, by simp, hR⟩
    · obtain ⟨b, hb, hr⟩ := ih a ha
      exact ⟨b, by simp [hb], hr⟩

theorem update_frame_ok_parts {parent child M : Frame}
    (h : update_frame parent child = Except.ok M) :
    ∃ out, (parent.rows.map (extendRow (setdiff1d child.cols parent.cols))).mapM
        (fun r => update_rows r child) = Except.ok out ∧
      sortByName out = Except.ok M.rows ∧
      M.cols = parent.cols ++ setdiff1d child.cols parent.cols := by
  simp only [update_frame] at h
  cases hmapM : (parent.rows.map
      (extendRow (setdiff1d child.cols parent.cols))).mapM
      (fun r => update_rows r child) with
  | error e =>
    rw [hmapM, except_error_bind] at h
    cases h
  | ok out =>
    rw [hmapM, except_ok_bind] at h
    cases hsort : sortByName out with
    | error e =>
      rw [hsort, except_error_bind] at h
      cases h
    | ok fin =>
      rw [hsort, except_ok_bind] at h
      injection h with h'
      refine ⟨out, rfl, ?_, ?_⟩
      · rw [← h']
        exact hsort
      · rw [← h']

/-- C10: for a row whose name matches two or more remote rows the
per-row update raises TooManyRowsReturnedError (only the zero-match
NoRowsReturnedError is caught), and consequently update_frame never
returns a table when its extended parent rows include such a row:
first-match-wins is not applied, reconciliation halts. -/
theorem c10_duplicate_remote_names (row : Row) (child : Frame) (v : Value)
    (hv : List.lookup "planet_name" row = some v)
    (hcol : "planet_name" ∈ child.cols)
    (hmany : ∃ r1 r2 rest,
      filterMatches child.rows v = Except.ok (r1 :: r2 :: rest)) :
    update_rows row child = Except.error PyErr.tooManyRowsReturnedError ∧
    ∀ (parent M : Frame),
      row ∈ parent.rows.map (extendRow (setdiff1d child.cols parent.cols)) →
      update_frame parent child ≠ Except.ok M := by
  obtain ⟨r1, r2, rest, hfilter⟩ := hmany
  have hupd : update_rows row child =
      Except.error PyErr.tooManyRowsReturnedError := by
    unfold update_rows
    rw [hv]
    simp only [hcol, if_true, hfilter]
  refine ⟨hupd, ?_⟩
  intro parent M hmem hok
  obtain ⟨out, hmapM, _, _⟩ := update_frame_ok_parts hok
  obtain ⟨b, _, hb⟩ := forall₂_mem_left (mapM_ok_forall₂ hmapM) row hmem
  rw [hupd] at hb
  cases hb

/-- Witness for c10_duplicate_remote_names at a concrete input. -/
theorem c10_duplicate_remote_names_witness :
    update_rows [("planet_name", Value.vStr "A")]
        (Frame.mk ["planet_name"]
          [[("planet_name", Value.vStr "A")],
           [("planet_name", Value.vStr "A")]]) =
      Except.error PyErr.tooManyRowsReturnedError :=
  (c10_duplicate_remote_names [("planet_name", Value.vStr "A")]
    (Frame.mk ["planet_name"]
      [[("planet_name", Value.vStr "A")], [("planet_name", Value.vStr "A")]])
    (Value.vStr "A") (by decide) (by decide)
    ⟨[("planet_name", Value.vStr "A")], [("planet_name", Value.vStr "A")], [],
      by decide⟩).1

/-! Order lemmas for the name comparators. -/

theorem charListLe_total : ∀ (a b : List Char),
    (charListLe a b || charListLe b a) = true := by
  intro a
  induction a with
  | nil => intro b; simp [charListLe]
  | cons x xs ih =>
    intro b
    cases b with
    | nil => simp [charListLe]
    | cons y ys =>
      by_cases hxy : x = y
      · subst hxy
        simpa [charListLe] using ih ys
      · rcases lt_or_gt_of_ne hxy with h | h
        · simp [charListLe, hxy, h]
        · simp [charListLe, hxy, Ne.symm hxy, h]

theorem charListLe_trans : ∀ (a b c : List Char),
    charListLe a b = true → charListLe b c = true → charListLe a c = true := by
  intro a
  induction a with
  | nil => intro b c _ _; simp [charListLe]
  | cons x xs ih =>
    intro b c h1 h2
    cases b with
    | nil => simp [charListLe] at h1
    | cons y ys =>
      cases c with
      | nil => simp [charListLe] at h2
      | cons z zs =>
        by_cases hxy : x = y
        · subst hxy
          by_cases hyz : x = z
          · subst hyz
            simp only [charListLe, if_pos rfl] at h1 h2 ⊢
            exact ih ys zs h1 h2
          · simp only [charListLe, if_pos rfl] at h1
            simp only [charListLe, if_neg hyz] at h2 ⊢
            exact h2
        · by_cases hyz : y = z
          · subst hyz
            simp only [charListLe, if_neg hxy] at h1 ⊢
            exact h1
          · simp only [charListLe, if_neg hxy] at h1
            simp only [charListLe, if_neg hyz] at h2
            have hlt : x < z := lt_trans (by simpa using h1) (by simpa using h2)
            simp only [charListLe, if_neg (ne_of_lt hlt)]
            simpa using hlt

theorem charListLe_antisymm : ∀ (a b : List Char),
    charListLe a b = true → charListLe b a = true → a = b := by
  intro a
  induction a with
  | nil =>
    intro b _ h2
    cases b with
    | nil => rfl
    | cons y ys => simp [charListLe] at h2
  | cons x xs ih =>
    intro b h1 h2
    cases b with
    | nil => simp [charListLe] at h1
    | cons y ys =>
      by_cases hxy : x = y
      · subst hxy
        simp only [charListLe, if_pos rfl] at h1 h2
        rw [ih ys h1 h2]
      · simp only [charListLe, if_neg hxy] at h1
        simp only [charListLe, if_neg (Ne.symm hxy)] at h2
        exact absurd (lt_trans (by simpa using h1) (by simpa using h2))
          (lt_irrefl x)

theorem bool_or_elim {a b : Bool} (h : (a || b) = true) :
    a = true ∨ b = true := by
  cases a
  · right; simpa using h
  · left; rfl

theorem valueLe_total (a b : Value) : (valueLe a b || valueLe b a) = true := by
  cases a with
  | vNaN => simp [valueLe]
  | vInt m =>
    cases b with
    | vNaN => simp [valueLe]
    | vInt n => simp [valueLe]; omega
    | vStr s => simp [valueLe]
  | vStr s =>
    cases b with
    | vNaN => simp [valueLe]
    | vInt n => simp [valueLe]
    | vStr t => simpa [valueLe, strLe] using charListLe_total s.data t.data

theorem valueLe_trans (a b c : Value) (h1 : valueLe a b = true)
    (h2 : valueLe b c = true) : valueLe a c = true := by
  cases a with
  | vNaN => simp [valueLe]
  | vInt m =>
    cases b with
    | vNaN => simp [valueLe] at h1
    | vInt n =>
      cases c with
      | vNaN => simp [valueLe] at h2
      | vInt p =>
        simp [valueLe] at h1 h2 ⊢
        omega
      | vStr t => simp [valueLe]
    | vStr s =>
      cases c with
      | vNaN => simp [valueLe] at h2
      | vInt p => simp [valueLe] at h2
      | vStr t => simp [valueLe]
  | vStr s =>
    cases b with
    | vNaN => simp [valueLe] at h1
    | vInt n => simp [valueLe] at h1
    | vStr u =>
      cases c with
      | vNaN => simp [valueLe] at h2
      | vInt p => simp [valueLe] at h2
      | vStr t =>
        simp only [valueLe, strLe] at h1 h2 ⊢
        exact charListLe_trans _ _ _ h1 h2

theorem valueLe_antisymm (a b : Value) (h1 : valueLe a b = true)
    (h2 : valueLe b a = true) : a = b := by
  cases a with
  | vNaN =>
    cases b with
    | vNaN => rfl
    | vInt n => simp [valueLe] at h2
    | vStr s => simp [valueLe] at h2
  | vInt m =>
    cases b with
    | vNaN => simp [valueLe] at h1
    | vInt n =>
      simp [valueLe] at h1 h2
      have hmn : m = n := le_antisymm h1 h2
      rw [hmn]
    | vStr s => simp [valueLe] at h2
  | vStr s =>
    cases b with
    | vNaN => simp [valueLe] at h1
    | vInt n => simp [valueLe] at h1
    | vStr t =>
      simp only [valueLe, strLe] at h1 h2
      exact congrArg Value.vStr (String.ext (charListLe_antisymm _ _ h1 h2))

instance : IsTotal Row rowOrder :=
  ⟨fun a b => bool_or_elim (valueLe_total (nameOfD a) (nameOfD b))⟩

instance : IsTrans Row rowOrder :=
  ⟨fun a b c h1 h2 => valueLe_trans (nameOfD a) (nameOfD b) (nameOfD c) h1 h2⟩

theorem rowOrder_names_eq {a b : Row} (h1 : rowOrder a b) (h2 : rowOrder b a) :
    nameOfD a = nameOfD b :=
  valueLe_antisymm (nameOfD a) (nameOfD b) h1 h2

/-! Lemmas about the sort step and the match filter. -/

theorem mem_setdiff1d (a b : List String) (x : String) :
    x ∈ setdiff1d a b ↔ x ∈ a ∧ x ∉ b := by
  unfold setdiff1d
  rw [(List.perm_insertionSort strOrder _).mem_iff]
  simp [List.mem_dedup, List.mem_filter, List.elem_iff]

theorem setdiff1d_nodup (a b : List String) : (setdiff1d a b).Nodup := by
  unfold setdiff1d
  exact (List.perm_insertionSort strOrder _).nodup_iff.mpr (List.nodup_dedup _)

theorem sortByName_ok_out {rows out : List Row}
    (h : sortByName rows = Except.ok out) :
    out = List.insertionSort rowOrder rows := by
  unfold sortByName at h
  cases rows with
  | nil => cases h
  | cons r rest =>
    have h2 : (if "planet_name" ∈ dictKeys r then
        Except.ok (List.insertionSort rowOrder (r :: rest))
      else Except.error (PyErr.columnNotFoundError "planet_name")) =
        Except.ok out := h
    by_cases hmem : "planet_name" ∈ dictKeys r
    · rw [if_pos hmem] at h2
      injection h2 with h3
      exact h3.symm
    · rw [if_neg hmem] at h2
      cases h2

theorem sortByName_ok_perm {rows out : List Row}
    (h : sortByName rows = Except.ok out) : out.Perm rows := by
  rw [sortByName_ok_out h]
  exact List.perm_insertionSort rowOrder rows

theorem sortByName_ok_sorted {rows out : List Row}
    (h : sortByName rows = Except.ok out) : out.Pairwise rowOrder := by
  rw [sortByName_ok_out h]
  exact List.sorted_insertionSort rowOrder rows

theorem sortByName_eq_ok (r : Row) (rest : List Row)
    (h : "planet_name" ∈ dictKeys r) :
    sortByName (r :: rest) =
      Except.ok (List.insertionSort rowOrder (r :: rest)) := by
  show (if "planet_name" ∈ dictKeys r then
      Except.ok (List.insertionSort rowOrder (r :: rest))
    else Except.error (PyErr.columnNotFoundError "planet_name")) =
      Except.ok (List.insertionSort rowOrder (r :: rest))
  rw [if_pos h]

theorem compareEq_true_eq {a b : Value} (h : compareEq a b = Except.ok true) :
    a = b := by
  cases a <;> cases b <;> simp_all [compareEq]

theorem isStrVal_exists {v : Value} (h : isStrVal v = true) :
    ∃ a, v = Value.vStr a := by
  cases v with
  | vNaN => simp [isStrVal] at h
  | vInt n => simp [isStrVal] at h
  | vStr a => exact ⟨a, rfl⟩

theorem filterMatches_ok_mem {rows : List Row} {v : Value} {l' : List Row} :
    filterMatches rows v = Except.ok l' →
      ∀ r ∈ l', r ∈ rows ∧ nameOfD r = v := by
  induction rows generalizing l' with
  | nil =>
    intro h r hr
    cases h
    simp at hr
  | cons r0 rest ih =>
    intro h r hr
    unfold filterMatches at h
    cases hc : compareEq (nameOfD r0) v with
    | error e => rw [hc] at h; cases h
    | ok b =>
      rw [hc, except_ok_bind] at h
      cases hrest : filterMatches rest v with
      | error e => rw [hrest] at h; cases h
      | ok tail =>
        rw [hrest, except_ok_bind] at h
        cases b with
        | true =>
          simp only [if_true] at h
          injection h with h'
          subst h'
          rcases List.mem_cons.mp hr with rfl | hr
          · exact ⟨by simp, compareEq_true_eq hc⟩
          · obtain ⟨hm, he⟩ := ih hrest r hr
            exact ⟨by simp [hm], he⟩
        | false =>
          simp only [Bool.false_eq_true, if_false] at h
          injection h with h'
          subst h'
          obtain ⟨hm, he⟩ := ih hrest r hr
          exact ⟨by simp [hm], he⟩

theorem filterMatches_str : ∀ (rows : List Row) (s : String),
    (∀ r ∈ rows, isStrVal (nameOfD r) = true) →
    filterMatches rows (Value.vStr s) =
      Except.ok (rows.filter (fun r => nameOfD r == Value.vStr s)) := by
  intro rows
  induction rows with
  | nil => intro s _; rfl
  | cons r rest ih =>
    intro s hstr
    obtain ⟨a, ha⟩ := isStrVal_exists (hstr r (by simp))
    unfold filterMatches
    rw [ha]
    have hc : compareEq (Value.vStr a) (Value.vStr s) =
        Except.ok (a == s) := rfl
    rw [hc, except_ok_bind, ih s (fun r hr => hstr r (by simp [hr])),
      except_ok_bind]
    by_cases has : a = s
    · subst has
      simp [List.filter_cons, ha]
    · have hne : (Value.vStr a == Value.vStr s) = false := by simp [has]
      simp [List.filter_cons, ha, hne, has]

/-! Lookup and key membership bridges. -/

theorem lookup_isSome_of_mem_keys {r : Row} {k : String} (h : k ∈ dictKeys r) :
    ∃ v, List.lookup k r = some v := by
  obtain ⟨p, hp, hk⟩ := mem_dictKeys.mp h
  have hs : (List.lookup k r).isSome := by
    rw [List.lookup_isSome_iff]
    exact ⟨p, hp, by simp [hk]⟩
  exact Option.isSome_iff_exists.mp hs

theorem mem_keys_of_lookup {r : Row} {k : String} {v : Value}
    (h : List.lookup k r = some v) : k ∈ dictKeys r := by
  have hs : (List.lookup k r).isSome := by simp [h]
  rw [List.lookup_isSome_iff] at hs
  obtain ⟨p, hp, he⟩ := hs
  exact mem_dictKeys.mpr ⟨p, hp, (beq_iff_eq.mp he).symm⟩

/-! Characterizations of the per-row update. -/

theorem update_rows_ok_cases {row m : Row} {child : Frame}
    (h : update_rows row child = Except.ok m) :
    ∃ v, List.lookup "planet_name" row = some v ∧
      "planet_name" ∈ child.cols ∧
      ((filterMatches child.rows v = Except.ok [] ∧ m = row) ∨
       (∃ r, filterMatches child.rows v = Except.ok [r] ∧
         m = dictUpdate row r)) := by
  unfold update_rows at h
  cases hv : List.lookup "planet_name" row with
  | none =>
    rw [hv] at h
    cases h
  | some v =>
    rw [hv] at h
    have h1 : (if "planet_name" ∈ child.cols then
        match filterMatches child.rows v with
        | Except.error e => Except.error e
        | Except.ok [] => Except.ok row
        | Except.ok [r] => Except.ok (dictUpdate row r)
        | Except.ok (_ :: _ :: _) =>
          Except.error PyErr.tooManyRowsReturnedError
      else Except.error (PyErr.columnNotFoundError "planet_name")) =
        Except.ok m := h
    by_cases hcol : "planet_name" ∈ child.cols
    · rw [if_pos hcol] at h1
      have h2 := h1
      cases hf : filterMatches child.rows v with
      | error e =>
        rw [hf] at h2
        have h3 : (Except.error e : Except PyErr Row) = Except.ok m := h2
        cases h3
      | ok l =>
        rw [hf] at h2
        cases l with
        | nil =>
          have h3 : Except.ok row = Except.ok m := h2
          injection h3 with h4
          exact ⟨v, rfl, hcol, Or.inl ⟨hf, h4.symm⟩⟩
        | cons r tail =>
          cases tail with
          | nil =>
            have h3 : Except.ok (dictUpdate row r) = Except.ok m := h2
            injection h3 with h4
            exact ⟨v, rfl, hcol, Or.inr ⟨r, hf, h4.symm⟩⟩
          | cons r2 rest =>
            have h3 : (Except.error PyErr.tooManyRowsReturnedError :
                Except PyErr Row) = Except.ok m := h2
            cases h3
    · rw [if_neg hcol] at h1
      cases h1

theorem update_rows_eq_ok {row : Row} {child : Frame} {s : String}
    (hv : List.lookup "planet_name" row = some (Value.vStr s))
    (hcol : "planet_name" ∈ child.cols)
    (hstr : ∀ r ∈ child.rows, isStrVal (nameOfD r) = true)
    (hcount : (matchingRows child (Value.vStr s)).length ≤ 1) :
    update_rows row child = Except.ok (procRow child row) := by
  have hname : nameOfD row = Value.vStr s := by simp [nameOfD, hv]
  have hfilter : filterMatches child.rows (Value.vStr s) =
      Except.ok (matchingRows child (Value.vStr s)) :=
    filterMatches_str child.rows s hstr
  unfold update_rows
  rw [hv]
  show (if "planet_name" ∈ child.cols then
      match filterMatches child.rows (Value.vStr s) with
      | Except.error e => Except.error e
      | Except.ok [] => Except.ok row
      | Except.ok [r] => Except.ok (dictUpdate row r)
      | Except.ok (_ :: _ :: _) => Except.error PyErr.tooManyRowsReturnedError
    else Except.error (PyErr.columnNotFoundError "planet_name")) =
    Except.ok (procRow child row)
  rw [if_pos hcol, hfilter]
  cases hm : matchingRows child (Value.vStr s) with
  | nil =>
    have hproc : procRow child row = row := by
      unfold procRow
      rw [hname, hm]
    show Except.ok row = Except.ok (procRow child row)
    rw [hproc]
  | cons r tail =>
    cases tail with
    | nil =>
      have hproc : procRow child row = dictUpdate row r := by
        unfold procRow
        rw [hname, hm]
      show Except.ok (dictUpdate row r) = Except.ok (procRow child row)
      rw [hproc]
    | cons r2 rest =>
      rw [hm] at hcount
      simp at hcount

/-! Key-set growth lemmas. -/

theorem mem_keys_dictSet_self (r : Row) (k : String) (v : Value) :
    k ∈ dictKeys (dictSet r k v) :=
  mem_keys_of_lookup (lookup_dictSet_self r k v)

theorem keys_subset_dictSet (r : Row) (k : String) (v : Value) :
    ∀ c ∈ dictKeys r, c ∈ dictKeys (dictSet r k v) := by
  intro c hc
  by_cases hck : c = k
  · subst hck
    exact mem_keys_dictSet_self r c v
  · obtain ⟨w, hw⟩ := lookup_isSome_of_mem_keys hc
    exact mem_keys_of_lookup (by rw [lookup_dictSet_ne r v hck]; exact hw)

theorem keys_subset_dictUpdate (other : Row) (r : Row) :
    ∀ c ∈ dictKeys r, c ∈ dictKeys (dictUpdate r other) := by
  induction other generalizing r with
  | nil => intro c hc; exact hc
  | cons p t ih =>
    intro c hc
    exact ih (dictSet r p.1 p.2) c (keys_subset_dictSet r p.1 p.2 c hc)

theorem mem_keys_extendRow (queried : List String) (r : Row) :
    ∀ c, (c ∈ queried ∨ c ∈ dictKeys r) →
      c ∈ dictKeys (extendRow queried r) := by
  induction queried generalizing r with
  | nil =>
    intro c hc
    rcases hc with hc | hc
    · simp at hc
    · exact hc
  | cons c0 t ih =>
    intro c hc
    have hstep : ∀ d ∈ dictKeys (dictSet r c0 Value.vNaN),
        d ∈ dictKeys (extendRow (c0 :: t) r) := by
      intro d hd
      exact ih (dictSet r c0 Value.vNaN) d (Or.inr hd)
    rcases hc with hc | hc
    · rcases List.mem_cons.mp hc with rfl | hc
      · exact hstep c (mem_keys_dictSet_self r c Value.vNaN)
      · exact ih (dictSet r c0 Value.vNaN) c (Or.inl hc)
    · exact hstep c (keys_subset_dictSet r c0 Value.vNaN c hc)

theorem update_rows_ok_name {row m : Row} {child : Frame}
    (hWFc : WFFrame child) (h : update_rows row child = Except.ok m) :
    List.lookup "planet_name" m = List.lookup "planet_name" row := by
  obtain ⟨v, hv, hcol, hcases⟩ := update_rows_ok_cases h
  rcases hcases with ⟨_, rfl⟩ | ⟨r, hf, rfl⟩
  · rfl
  · obtain ⟨hm, he⟩ := filterMatches_ok_mem hf r (by simp)
    have hkeys : dictKeys r = child.cols := hWFc.2 r hm
    have hpl : "planet_name" ∈ dictKeys r := by rw [hkeys]; exact hcol
    obtain ⟨w, hw⟩ := lookup_isSome_of_mem_keys hpl
    have hwv : w = v := by
      have hnw : nameOfD r = w := by simp [nameOfD, hw]
      rw [← he, hnw]
    have hnd : (dictKeys r).Nodup := by rw [hkeys]; exact hWFc.1
    rw [lookup_dictUpdate_of_lookup r row hnd hw, hv, hwv]

/-! Uniqueness of a sorted permutation with distinct names. -/

theorem sorted_perm_nodup_names_eq :
    ∀ {l1 l2 : List Row}, l1.Perm l2 →
      l1.Pairwise rowOrder → l2.Pairwise rowOrder →
      (l1.map nameOfD).Nodup → l1 = l2 := by
  intro l1
  induction l1 with
  | nil =>
    intro l2 hperm _ _ _
    exact (hperm.nil_eq).symm ▸ rfl
  | cons a t1 ih =>
    intro l2 hperm hs1 hs2 hnd
    cases l2 with
    | nil => exact absurd hperm.symm.nil_eq (by simp)
    | cons b t2 =>
      have hnd' : (∀ x ∈ t1, ¬nameOfD x = nameOfD a) ∧
          (List.map nameOfD t1).Nodup := by simpa using hnd
      by_cases hab : a = b
      · subst hab
        have htail := hperm.cons_inv
        have h1 := List.pairwise_cons.mp hs1
        have h2 := List.pairwise_cons.mp hs2
        rw [ih htail h1.2 h2.2 hnd'.2]
      · have ha2 : a ∈ t2 := by
          rcases List.mem_cons.mp
            (hperm.mem_iff.mp (List.mem_cons_self a t1)) with h | h
          · exact absurd h hab
          · exact h
        have hb1 : b ∈ t1 := by
          rcases List.mem_cons.mp
            (hperm.symm.mem_iff.mp (List.mem_cons_self b t2)) with h | h
          · exact absurd h.symm hab
          · exact h
        have hoab : rowOrder a b := (List.pairwise_cons.mp hs1).1 b hb1
        have hoba : rowOrder b a := (List.pairwise_cons.mp hs2).1 a ha2
        have hnames : nameOfD a = nameOfD b := rowOrder_names_eq hoab hoba
        exact absurd hnames.symm (hnd'.1 b hb1)

/-! Provenance of the merged rows. -/

theorem update_frame_ok_rows {parent child M : Frame}
    (h : update_frame parent child = Except.ok M) :
    M.rows.length = parent.rows.length ∧
    M.cols = parent.cols ++ setdiff1d child.cols parent.cols ∧
    ∀ m ∈ M.rows, ∃ l ∈ parent.rows,
      update_rows (extendRow (setdiff1d child.cols parent.cols) l) child =
        Except.ok m := by
  obtain ⟨out, hmapM, hsort, hcols⟩ := update_frame_ok_parts h
  have hf := mapM_ok_forall₂ hmapM
  have hperm := sortByName_ok_perm hsort
  refine ⟨?_, hcols, ?_⟩
  · rw [hperm.length_eq, hf.length_eq.symm, List.length_map]
  · intro m hm
    obtain ⟨row, hrow, hok⟩ :=
      forall₂_mem_right hf m (hperm.mem_iff.mp hm)
    obtain ⟨l, hl, rfl⟩ := List.mem_map.mp hrow
    exact ⟨l, hl, hok⟩

theorem sortByName_eq_ok_of_ne_nil (rows : List Row) (hne : rows ≠ [])
    (hhead : ∀ r ∈ rows, "planet_name" ∈ dictKeys r) :
    sortByName rows = Except.ok (List.insertionSort rowOrder rows) := by
  cases rows with
  | nil => exact absurd rfl hne
  | cons r rest => exact sortByName_eq_ok r rest (hhead r (by simp))

theorem lookup_some_of_isStr {l : Row} {s : String}
    (hs : nameOfD l = Value.vStr s) :
    List.lookup "planet_name" l = some (Value.vStr s) := by
  cases hx : List.lookup "planet_name" l with
  | none =>
    rw [nameOfD, hx] at hs
    simp at hs
  | some w =>
    rw [nameOfD, hx] at hs
    simp only [Option.getD_some] at hs
    rw [hs]

/-- The central success characterization of update_frame: under
well-formedness, presence of the name column on both sides,
string-typed names, a non-empty local table and at most one remote
match per local name, the merge succeeds and returns exactly the
extended, per-row-updated, stably-name-sorted rows. -/
theorem update_frame_eq_ok (parent child : Frame)
    (hWFp : WFFrame parent) (hWFc : WFFrame child)
    (hpl : "planet_name" ∈ parent.cols) (hplc : "planet_name" ∈ child.cols)
    (hne : parent.rows ≠ [])
    (hstrP : ∀ r ∈ parent.rows, isStrVal (nameOfD r) = true)
    (hstrC : ∀ r ∈ child.rows, isStrVal (nameOfD r) = true)
    (hcount : ∀ l ∈ parent.rows,
      (matchingRows child (nameOfD l)).length ≤ 1) :
    update_frame parent child = Except.ok
      (Frame.mk (parent.cols ++ setdiff1d child.cols parent.cols)
        (List.insertionSort rowOrder
          ((parent.rows.map (extendRow (setdiff1d child.cols parent.cols))).map
            (procRow child)))) := by
  have hplq : "planet_name" ∉ setdiff1d child.cols parent.cols := fun hh =>
    ((mem_setdiff1d _ _ _).mp hh).2 hpl
  have hrow : ∀ l ∈ parent.rows.map
      (extendRow (setdiff1d child.cols parent.cols)),
      update_rows l child = Except.ok (procRow child l) := by
    intro row hrow
    obtain ⟨l, hl, rfl⟩ := List.mem_map.mp hrow
    obtain ⟨s, hs⟩ := isStrVal_exists (hstrP l hl)
    have hlook : List.lookup "planet_name" l = some (Value.vStr s) :=
      lookup_some_of_isStr hs
    have hlook' : List.lookup "planet_name"
        (extendRow (setdiff1d child.cols parent.cols) l) =
          some (Value.vStr s) := by
      rw [lookup_extendRow_of_not_mem _ l hplq, hlook]
    have hcount' : (matchingRows child (Value.vStr s)).length ≤ 1 := by
      have hc := hcount l hl
      rw [hs] at hc
      exact hc
    have hres := update_rows_eq_ok hlook' hplc hstrC hcount'
    have hname' : nameOfD (extendRow (setdiff1d child.cols parent.cols) l) =
        Value.vStr s := by simp [nameOfD, hlook']
    exact hres
  have hmapM := mapM_eq_ok_of_forall
    (parent.rows.map (extendRow (setdiff1d child.cols parent.cols))) hrow
  have hmappedne : (parent.rows.map
      (extendRow (setdiff1d child.cols parent.cols))).map (procRow child) ≠
        [] := by
    simp only [ne_eq, List.map_eq_nil_iff]
    exact hne
  have hheads : ∀ m ∈ (parent.rows.map
      (extendRow (setdiff1d child.cols parent.cols))).map (procRow child),
      "planet_name" ∈ dictKeys m := by
    intro m hm
    obtain ⟨row, hrmem, rfl⟩ := List.mem_map.mp hm
    have hok := hrow row hrmem
    have hnm := update_rows_ok_name hWFc hok
    obtain ⟨l, hl, rfl⟩ := List.mem_map.mp hrmem
    obtain ⟨s, hs⟩ := isStrVal_exists (hstrP l hl)
    have hlook' : List.lookup "planet_name"
        (extendRow (setdiff1d child.cols parent.cols) l) =
          some (Value.vStr s) := by
      rw [lookup_extendRow_of_not_mem _ l hplq, lookup_some_of_isStr hs]
    exact mem_keys_of_lookup (hnm.trans hlook')
  have hsortN := sortByName_eq_ok_of_ne_nil _ hmappedne hheads
  simp only [update_frame]
  rw [hmapM, except_ok_bind, hsortN, except_ok_bind]

/-- Per-row properties of the merged row: local-only columns and the
name are preserved; remote columns are the matching remote row's
values, or uniformly NaN when no remote row matches. -/
theorem procRow_props (parentCols : List String) (child : Frame) (l : Row)
    (hWFc : WFFrame child) (hplc : "planet_name" ∈ child.cols)
    (hplp : "planet_name" ∈ parentCols)
    (hname : isStrVal (nameOfD l) = true) :
    (∀ c, c ∈ parentCols → c ∉ child.cols →
      List.lookup c
        (procRow child (extendRow (setdiff1d child.cols parentCols) l)) =
        List.lookup c l) ∧
    List.lookup "planet_name"
      (procRow child (extendRow (setdiff1d child.cols parentCols) l)) =
      List.lookup "planet_name" l ∧
    ((matchingRows child (nameOfD l) = [] ∧
      ∀ c ∈ setdiff1d child.cols parentCols,
        List.lookup c
          (procRow child (extendRow (setdiff1d child.cols parentCols) l)) =
          some Value.vNaN) ∨
     (∃ rr rest, matchingRows child (nameOfD l) = rr :: rest ∧
      ∀ c ∈ child.cols,
        List.lookup c
          (procRow child (extendRow (setdiff1d child.cols parentCols) l)) =
          List.lookup c rr)) := by
  obtain ⟨s, hs⟩ := isStrVal_exists hname
  have hlook : List.lookup "planet_name" l = some (Value.vStr s) :=
    lookup_some_of_isStr hs
  have hplq : "planet_name" ∉ setdiff1d child.cols parentCols := fun hh =>
    ((mem_setdiff1d _ _ _).mp hh).2 hplp
  have hlook' : List.lookup "planet_name"
      (extendRow (setdiff1d child.cols parentCols) l) =
        some (Value.vStr s) := by
    rw [lookup_extendRow_of_not_mem _ l hplq, hlook]
  have hname' : nameOfD (extendRow (setdiff1d child.cols parentCols) l) =
      Value.vStr s := by simp [nameOfD, hlook']
  cases hm : matchingRows child (Value.vStr s) with
  | nil =>
    have hproc : procRow child (extendRow (setdiff1d child.cols parentCols) l) =
        extendRow (setdiff1d child.cols parentCols) l := by
      unfold procRow
      rw [hname', hm]
    refine ⟨?_, ?_, Or.inl ⟨by rw [hs]; exact hm, ?_⟩⟩
    · intro c hcp hcc
      have hcq : c ∉ setdiff1d child.cols parentCols := fun hh =>
        hcc ((mem_setdiff1d _ _ _).mp hh).1
      rw [hproc, lookup_extendRow_of_not_mem _ l hcq]
    · rw [hproc, hlook', hlook]
    · intro c hc
      rw [hproc, lookup_extendRow_mem _ l (setdiff1d_nodup _ _) hc]
  | cons rr rest =>
    have hproc : procRow child (extendRow (setdiff1d child.cols parentCols) l) =
        dictUpdate (extendRow (setdiff1d child.cols parentCols) l) rr := by
      unfold procRow
      rw [hname', hm]
    have hrrmem : rr ∈ matchingRows child (Value.vStr s) := by
      rw [hm]; simp
    have hrrrows : rr ∈ child.rows := (List.mem_filter.mp hrrmem).1
    have hrrname : nameOfD rr = Value.vStr s := by
      have := (List.mem_filter.mp hrrmem).2
      simpa using this
    have hkeys : dictKeys rr = child.cols := hWFc.2 rr hrrrows
    have hnd : (dictKeys rr).Nodup := by rw [hkeys]; exact hWFc.1
    refine ⟨?_, ?_, Or.inr ⟨rr, rest, by rw [hs]; exact hm, ?_⟩⟩
    · intro c hcp hcc
      have hcq : c ∉ setdiff1d child.cols parentCols := fun hh =>
        hcc ((mem_setdiff1d _ _ _).mp hh).1
      have hckeys : c ∉ dictKeys rr := by rw [hkeys]; exact hcc
      rw [hproc, lookup_dictUpdate_of_not_mem rr _ hckeys,
        lookup_extendRow_of_not_mem _ l hcq]
    · have hplrr : "planet_name" ∈ dictKeys rr := by rw [hkeys]; exact hplc
      obtain ⟨w, hw⟩ := lookup_isSome_of_mem_keys hplrr
      have hws : w = Value.vStr s := by
        have : nameOfD rr = w := by simp [nameOfD, hw]
        rw [← hrrname, this]
      rw [hproc, lookup_dictUpdate_of_lookup rr _ hnd hw, hws, hlook]
    · intro c hc
      have hckeys : c ∈ dictKeys rr := by rw [hkeys]; exact hc
      obtain ⟨w, hw⟩ := lookup_isSome_of_mem_keys hckeys
      rw [hproc, lookup_dictUpdate_of_lookup rr _ hnd hw, hw]

/-- C2: whenever reconciliation returns a table, every column present
in the remote frame but absent from the local frame appears in every
output row (not only matched rows), and every output row whose name
matches no remote row holds the float-NaN missing sentinel in each
remote-originated column — a value that is neither zero nor the empty
string. -/
theorem c2_new_columns_sentinel (parent child M : Frame)
    (hWFc : WFFrame child)
    (hok : update_frame parent child = Except.ok M) :
    (∀ c, c ∈ child.cols → c ∉ parent.cols →
      ∀ m ∈ M.rows, c ∈ dictKeys m) ∧
    (∀ m ∈ M.rows, matchingRows child (nameOfD m) = [] →
      ∀ c, c ∈ child.cols → c ∉ parent.cols →
        List.lookup c m = some Value.vNaN ∧
        Value.vNaN ≠ Value.vInt 0 ∧ Value.vNaN ≠ Value.vStr "") := by
  obtain ⟨hlen, hcols, hprov⟩ := update_frame_ok_rows hok
  constructor
  · intro c hcc hcp m hm
    obtain ⟨l, hl, hokrow⟩ := hprov m hm
    have hcq : c ∈ setdiff1d child.cols parent.cols :=
      (mem_setdiff1d _ _ _).mpr ⟨hcc, hcp⟩
    have hkeyrow : c ∈ dictKeys
        (extendRow (setdiff1d child.cols parent.cols) l) :=
      mem_keys_extendRow _ l c (Or.inl hcq)
    obtain ⟨v, hv, hcol, hcases⟩ := update_rows_ok_cases hokrow
    rcases hcases with ⟨_, rfl⟩ | ⟨r, hf, rfl⟩
    · exact hkeyrow
    · exact keys_subset_dictUpdate r _ c hkeyrow
  · intro m hm hmatch c hcc hcp
    obtain ⟨l, hl, hokrow⟩ := hprov m hm
    have hcq : c ∈ setdiff1d child.cols parent.cols :=
      (mem_setdiff1d _ _ _).mpr ⟨hcc, hcp⟩
    obtain ⟨v, hv, hcol, hcases⟩ := update_rows_ok_cases hokrow
    have hnm : List.lookup "planet_name" m = some v :=
      (update_rows_ok_name hWFc hokrow).trans hv
    have hnamem : nameOfD m = v := by simp [nameOfD, hnm]
    rcases hcases with ⟨_, rfl⟩ | ⟨r, hf, rfl⟩
    · refine ⟨?_, by simp, by simp⟩
      exact lookup_extendRow_mem _ l (setdiff1d_nodup _ _) hcq
    · obtain ⟨hrmem, hrname⟩ := filterMatches_ok_mem hf r (by simp)
      have : r ∈ matchingRows child (nameOfD (dictUpdate
          (extendRow (setdiff1d child.cols parent.cols) l) r)) := by
        rw [hnamem]
        exact List.mem_filter.mpr ⟨hrmem, by simp [hrname]⟩
      rw [hmatch] at this
      simp at this

/-- Witness for c2_new_columns_sentinel at a concrete input. -/
theorem c2_new_columns_sentinel_witness :
    (WFFrame (Frame.mk ["planet_name", "radius"]
        [[("planet_name", Value.vStr "B"), ("radius", Value.vInt 7)]]) ∧
      update_frame
        (Frame.mk ["planet_name"] [[("planet_name", Value.vStr "A")]])
        (Frame.mk ["planet_name", "radius"]
          [[("planet_name", Value.vStr "B"), ("radius", Value.vInt 7)]]) =
        Except.ok (Frame.mk ["planet_name", "radius"]
          [[("planet_name", Value.vStr "A"), ("radius", Value.vNaN)]])) ∧
    ((∀ c, c ∈ ["planet_name", "radius"] → c ∉ ["planet_name"] →
      ∀ m ∈ [[("planet_name", Value.vStr "A"), ("radius", Value.vNaN)]],
        c ∈ dictKeys m) ∧
    (∀ m ∈ [[("planet_name", Value.vStr "A"), ("radius", Value.vNaN)]],
      matchingRows (Frame.mk ["planet_name", "radius"]
        [[("planet_name", Value.vStr "B"), ("radius", Value.vInt 7)]])
        (nameOfD m) = [] →
      ∀ c, c ∈ ["planet_name", "radius"] → c ∉ ["planet_name"] →
        List.lookup c m = some Value.vNaN ∧
        Value.vNaN ≠ Value.vInt 0 ∧ Value.vNaN ≠ Value.vStr "")) :=
  ⟨⟨by decide, by decide⟩,
    c2_new_columns_sentinel
      (Frame.mk ["planet_name"] [[("planet_name", Value.vStr "A")]])
      (Frame.mk ["planet_name", "radius"]
        [[("planet_name", Value.vStr "B"), ("radius", Value.vInt 7)]])
      (Frame.mk ["planet_name", "radius"]
        [[("planet_name", Value.vStr "A"), ("radius", Value.vNaN)]])
      (by decide) (by decide)⟩

theorem filter_names_le_one :
    ∀ (rows : List Row) (v : Value), (rows.map nameOfD).Nodup →
      (rows.filter (fun r => nameOfD r == v)).length ≤ 1 := by
  intro rows
  induction rows with
  | nil => intro v _; simp
  | cons r t ih =>
    intro v hnd
    rw [List.map_cons, List.nodup_cons] at hnd
    by_cases hr : nameOfD r = v
    · subst hr
      rw [List.filter_cons]
      simp only [beq_self_eq_true, if_true]
      have hnone : t.filter (fun x => nameOfD x == nameOfD r) = [] := by
        rw [List.filter_eq_nil_iff]
        intro x hx hpx
        have hxv : nameOfD x = nameOfD r := by simpa using hpx
        exact hnd.1 (by
          rw [← hxv]
          exact List.mem_map_of_mem nameOfD hx)
      rw [hnone]
      simp
    · rw [List.filter_cons]
      have hf : (nameOfD r == v) = false := by simp [hr]
      rw [hf]
      simp only [Bool.false_eq_true, if_false]
      exact ih v hnd.2

theorem matchingRows_le_one {child : Frame}
    (hnd : (child.rows.map nameOfD).Nodup) (v : Value) :
    (matchingRows child v).length ≤ 1 :=
  filter_names_le_one child.rows v hnd

/-- C1 counterexample: the claim states that every column that already
existed in the local table keeps, in each output row, the local row's
value.  Here both tables are well formed, both contain the name column,
the remote names are unique — yet the shared column x is overwritten by
the remote value: the single local row had x 1 and the merged row
carries x 2, because update_rows copies every column of the matched
remote row, including columns the local table already has. -/
theorem c1_counterexample :
    WFFrame (Frame.mk ["planet_name", "x"]
      [[("planet_name", Value.vStr "A"), ("x", Value.vInt 1)]]) ∧
    WFFrame (Frame.mk ["planet_name", "x"]
      [[("planet_name", Value.vStr "A"), ("x", Value.vInt 2)]]) ∧
    ((Frame.mk ["planet_name", "x"]
      [[("planet_name", Value.vStr "A"), ("x", Value.vInt 2)]]).rows.map
        nameOfD).Nodup ∧
    update_frame
      (Frame.mk ["planet_name", "x"]
        [[("planet_name", Value.vStr "A"), ("x", Value.vInt 1)]])
      (Frame.mk ["planet_name", "x"]
        [[("planet_name", Value.vStr "A"), ("x", Value.vInt 2)]]) =
      Except.ok (Frame.mk ["planet_name", "x"]
        [[("planet_name", Value.vStr "A"), ("x", Value.vInt 2)]]) ∧
    List.lookup "x"
      [("planet_name", Value.vStr "A"), ("x", Value.vInt 2)] =
      some (Value.vInt 2) ∧
    List.lookup "x"
      [("planet_name", Value.vStr "A"), ("x", Value.vInt 1)] =
      some (Value.vInt 1) ∧
    some (Value.vInt 2) ≠ some (Value.vInt 1) := by
  refine ⟨by decide, by decide, by decide, by decide, by decide, by decide,
    by decide⟩

/-- C1 amended: for well-formed tables that both contain the (string
typed) name column, with unique remote names and a non-empty local
table, the merge succeeds with exactly as many rows as the local table;
every column present ONLY in the local table keeps, in each output row,
the value of that row's source local row, the name column is preserved,
and each row's remote columns are either the values of the single
matching remote row (which then overwrites every remote-table column,
including any column the local table shares with it) or, when no remote
row matches, the remote-only columns are a uniform NaN sentinel. -/
theorem c1_merge_invariant (parent child : Frame)
    (hWFp : WFFrame parent) (hWFc : WFFrame child)
    (hpl : "planet_name" ∈ parent.cols) (hplc : "planet_name" ∈ child.cols)
    (hne : parent.rows ≠ [])
    (hstrP : ∀ r ∈ parent.rows, isStrVal (nameOfD r) = true)
    (hstrC : ∀ r ∈ child.rows, isStrVal (nameOfD r) = true)
    (hnodupR : (child.rows.map nameOfD).Nodup) :
    ∃ M, update_frame parent child = Except.ok M ∧
      M.rows.length = parent.rows.length ∧
      ∀ m ∈ M.rows, ∃ l ∈ parent.rows,
        (∀ c, c ∈ parent.cols → c ∉ child.cols →
          List.lookup c m = List.lookup c l) ∧
        List.lookup "planet_name" m = List.lookup "planet_name" l ∧
        ((matchingRows child (nameOfD l) = [] ∧
          ∀ c, c ∈ child.cols → c ∉ parent.cols →
            List.lookup c m = some Value.vNaN) ∨
         (∃ rr, matchingRows child (nameOfD l) = [rr] ∧
          ∀ c ∈ child.cols, List.lookup c m = List.lookup c rr)) := by
  have hcount : ∀ l ∈ parent.rows,
      (matchingRows child (nameOfD l)).length ≤ 1 := fun l _ =>
    matchingRows_le_one hnodupR _
  refine ⟨_, update_frame_eq_ok parent child hWFp hWFc hpl hplc hne
    hstrP hstrC hcount, ?_, ?_⟩
  · simp only []
    rw [(List.perm_insertionSort rowOrder _).length_eq]
    simp
  · intro m hm
    simp only [] at hm
    rw [List.mem_insertionSort] at hm
    obtain ⟨row, hrowm, rfl⟩ := List.mem_map.mp hm
    obtain ⟨l, hl, rfl⟩ := List.mem_map.mp hrowm
    have hp := procRow_props parent.cols child l hWFc hplc hpl (hstrP l hl)
    refine ⟨l, hl, hp.1, hp.2.1, ?_⟩
    rcases hp.2.2 with ⟨hnil, hvals⟩ | ⟨rr, rest, hcons, hvals⟩
    · exact Or.inl ⟨hnil, fun c hcc hcp =>
        hvals c ((mem_setdiff1d _ _ _).mpr ⟨hcc, hcp⟩)⟩
    · have hrest : rest = [] := by
        have hle := hcount l hl
        rw [hcons] at hle
        simpa using hle
      subst hrest
      exact Or.inr ⟨rr, hcons, hvals⟩

/-- Witness for c1_merge_invariant at a concrete input. -/
theorem c1_merge_invariant_witness :
    (WFFrame (Frame.mk ["planet_name"] [[("planet_name", Value.vStr "A")]]) ∧
      WFFrame (Frame.mk ["planet_name", "radius"]
        [[("planet_name", Value.vStr "A"), ("radius", Value.vInt 7)]])) ∧
    (∃ M, update_frame
        (Frame.mk ["planet_name"] [[("planet_name", Value.vStr "A")]])
        (Frame.mk ["planet_name", "radius"]
          [[("planet_name", Value.vStr "A"), ("radius", Value.vInt 7)]]) =
        Except.ok M ∧
      M.rows.length =
        (Frame.mk ["planet_name"]
          [[("planet_name", Value.vStr "A")]]).rows.length ∧
      ∀ m ∈ M.rows, ∃ l ∈ (Frame.mk ["planet_name"]
          [[("planet_name", Value.vStr "A")]]).rows,
        (∀ c, c ∈ ["planet_name"] → c ∉ ["planet_name", "radius"] →
          List.lookup c m = List.lookup c l) ∧
        List.lookup "planet_name" m = List.lookup "planet_name" l ∧
        ((matchingRows (Frame.mk ["planet_name", "radius"]
            [[("planet_name", Value.vStr "A"), ("radius", Value.vInt 7)]])
            (nameOfD l) = [] ∧
          ∀ c, c ∈ ["planet_name", "radius"] → c ∉ ["planet_name"] →
            List.lookup c m = some Value.vNaN) ∨
         (∃ rr, matchingRows (Frame.mk ["planet_name", "radius"]
            [[("planet_name", Value.vStr "A"), ("radius", Value.vInt 7)]])
            (nameOfD l) = [rr] ∧
          ∀ c ∈ ["planet_name", "radius"],
            List.lookup c m = List.lookup c rr))) :=
  ⟨⟨by decide, by decide⟩,
    c1_merge_invariant
      (Frame.mk ["planet_name"] [[("planet_name", Value.vStr "A")]])
      (Frame.mk ["planet_name", "radius"]
        [[("planet_name", Value.vStr "A"), ("radius", Value.vInt 7)]])
      (by decide) (by decide) (by decide) (by decide) (by decide)
      (by decide) (by decide) (by decide)⟩

/-- C3 counterexample: the claim asserts that whenever every local name
appears exactly once in the remote table, reconcile returns a table
with as many rows as the local table.  For an empty local table (zero
rows, hypothesis vacuously true, both tables well formed with the name
column) the code raises ColumnNotFoundError instead of returning an
empty table: pl.DataFrame built from zero row dictionaries has no
schema, so the final sort by planet_name fails. -/
theorem c3_counterexample :
    WFFrame (Frame.mk ["planet_name"] ([] : List Row)) ∧
    (∀ l ∈ (Frame.mk ["planet_name"] ([] : List Row)).rows,
      (matchingRows (Frame.mk ["planet_name"] ([] : List Row))
        (nameOfD l)).length = 1) ∧
    update_frame (Frame.mk ["planet_name"] ([] : List Row))
        (Frame.mk ["planet_name"] ([] : List Row)) =
      Except.error (PyErr.columnNotFoundError "planet_name") := by
  refine ⟨by decide, by decide, by decide⟩

/-- C3 amended: for well-formed tables with string-typed name columns,
a NON-EMPTY local table, and every local name matching exactly one
remote row, the merge succeeds with the local table's row count; every
output row's remote-table columns equal the single matching remote
row's values, every column present only in the local table is
unchanged, and the name column is preserved. -/
theorem c3_all_names_matched (parent child : Frame)
    (hWFp : WFFrame parent) (hWFc : WFFrame child)
    (hpl : "planet_name" ∈ parent.cols) (hplc : "planet_name" ∈ child.cols)
    (hne : parent.rows ≠ [])
    (hstrP : ∀ r ∈ parent.rows, isStrVal (nameOfD r) = true)
    (hstrC : ∀ r ∈ child.rows, isStrVal (nameOfD r) = true)
    (hexact : ∀ l ∈ parent.rows,
      (matchingRows child (nameOfD l)).length = 1) :
    ∃ M, update_frame parent child = Except.ok M ∧
      M.rows.length = parent.rows.length ∧
      ∀ m ∈ M.rows, ∃ l ∈ parent.rows,
        (∀ c, c ∈ parent.cols → c ∉ child.cols →
          List.lookup c m = List.lookup c l) ∧
        List.lookup "planet_name" m = List.lookup "planet_name" l ∧
        ∃ rr, matchingRows child (nameOfD l) = [rr] ∧
          ∀ c ∈ child.cols, List.lookup c m = List.lookup c rr := by
  have hcount : ∀ l ∈ parent.rows,
      (matchingRows child (nameOfD l)).length ≤ 1 := fun l hl =>
    le_of_eq (hexact l hl)
  refine ⟨_, update_frame_eq_ok parent child hWFp hWFc hpl hplc hne
    hstrP hstrC hcount, ?_, ?_⟩
  · simp only []
    rw [(List.perm_insertionSort rowOrder _).length_eq]
    simp
  · intro m hm
    simp only [] at hm
    rw [List.mem_insertionSort] at hm
    obtain ⟨row, hrowm, rfl⟩ := List.mem_map.mp hm
    obtain ⟨l, hl, rfl⟩ := List.mem_map.mp hrowm
    have hp := procRow_props parent.cols child l hWFc hplc hpl (hstrP l hl)
    refine ⟨l, hl, hp.1, hp.2.1, ?_⟩
    rcases hp.2.2 with ⟨hnil, _⟩ | ⟨rr, rest, hcons, hvals⟩
    · have := hexact l hl
      rw [hnil] at this
      simp at this
    · have hrest : rest = [] := by
        have hle := hexact l hl
        rw [hcons] at hle
        simpa using hle
      subst hrest
      exact ⟨rr, hcons, hvals⟩

/-- Witness for c3_all_names_matched at a concrete input. -/
theorem c3_all_names_matched_witness :
    (WFFrame (Frame.mk ["planet_name"] [[("planet_name", Value.vStr "A")]]) ∧
      (∀ l ∈ (Frame.mk ["planet_name"]
          [[("planet_name", Value.vStr "A")]]).rows,
        (matchingRows (Frame.mk ["planet_name", "radius"]
          [[("planet_name", Value.vStr "A"), ("radius", Value.vInt 7)]])
          (nameOfD l)).length = 1)) ∧
    (∃ M, update_frame
        (Frame.mk ["planet_name"] [[("planet_name", Value.vStr "A")]])
        (Frame.mk ["planet_name", "radius"]
          [[("planet_name", Value.vStr "A"), ("radius", Value.vInt 7)]]) =
        Except.ok M ∧
      M.rows.length =
        (Frame.mk ["planet_name"]
          [[("planet_name", Value.vStr "A")]]).rows.length ∧
      ∀ m ∈ M.rows, ∃ l ∈ (Frame.mk ["planet_name"]
          [[("planet_name", Value.vStr "A")]]).rows,
        (∀ c, c ∈ ["planet_name"] → c ∉ ["planet_name", "radius"] →
          List.lookup c m = List.lookup c l) ∧
        List.lookup "planet_name" m = List.lookup "planet_name" l ∧
        ∃ rr, matchingRows (Frame.mk ["planet_name", "radius"]
            [[("planet_name", Value.vStr "A"), ("radius", Value.vInt 7)]])
            (nameOfD l) = [rr] ∧
          ∀ c ∈ ["planet_name", "radius"],
            List.lookup c m = List.lookup c rr) :=
  ⟨⟨by decide, by decide⟩,
    c3_all_names_matched
      (Frame.mk ["planet_name"] [[("planet_name", Value.vStr "A")]])
      (Frame.mk ["planet_name", "radius"]
        [[("planet_name", Value.vStr "A"), ("radius", Value.vInt 7)]])
      (by decide) (by decide) (by decide) (by decide) (by decide)
      (by decide) (by decide) (by decide)⟩

/-! Permutation invariance machinery for the merge. -/

theorem compareEq_error_eq {a b : Value} {e : PyErr}
    (h : compareEq a b = Except.error e) : e = PyErr.computeError := by
  cases a <;> cases b <;> simp_all [compareEq]

theorem filterMatches_eq_alt (rows : List Row) (v : Value) :
    filterMatches rows v =
      if rows.all (fun r => (compareEq (nameOfD r) v).isOk) then
        Except.ok (rows.filter
          (fun r => decide (compareEq (nameOfD r) v = Except.ok true)))
      else Except.error PyErr.computeError := by
  induction rows with
  | nil => rfl
  | cons r rest ih =>
    unfold filterMatches
    cases hc : compareEq (nameOfD r) v with
    | error e =>
      have he := compareEq_error_eq hc
      subst he
      rw [except_error_bind]
      have hok : (compareEq (nameOfD r) v).isOk = false := by
        rw [hc]; rfl
      rw [List.all_cons, hok, Bool.false_and]
      simp
    | ok b =>
      have hok : (compareEq (nameOfD r) v).isOk = true := by
        rw [hc]; rfl
      rw [except_ok_bind, ih]
      by_cases hall : rest.all (fun r => (compareEq (nameOfD r) v).isOk) = true
      · rw [if_pos hall, except_ok_bind]
        have hall2 : (r :: rest).all
            (fun r => (compareEq (nameOfD r) v).isOk) = true := by
          simp [List.all_cons, hok, hall]
        rw [if_pos hall2, List.filter_cons]
        cases b with
        | true =>
          have hp : decide (compareEq (nameOfD r) v = Except.ok true) =
              true := by simp [hc]
          rw [hp]
          simp
        | false =>
          have hp : decide (compareEq (nameOfD r) v = Except.ok true) =
              false := by simp [hc]
          rw [hp]
          simp
      · rw [if_neg hall]
        have hall2 : ¬ ((r :: rest).all
            (fun r => (compareEq (nameOfD r) v).isOk) = true) := by
          simp only [List.all_cons, Bool.and_eq_true]
          intro hh
          exact hall hh.2
        rw [if_neg hall2]
        rfl

theorem list_all_perm {α : Type} {l l' : List α} (h : l.Perm l')
    (p : α → Bool) : l.all p = l'.all p := by
  cases hl : l.all p with
  | true =>
    symm
    rw [List.all_eq_true] at hl ⊢
    intro a ha
    exact hl a (h.mem_iff.mpr ha)
  | false =>
    symm
    rw [Bool.eq_false_iff] at hl ⊢
    intro hh
    apply hl
    rw [List.all_eq_true] at hh ⊢
    intro a ha
    exact hh a (h.mem_iff.mp ha)

theorem update_rows_child_perm (r : Row) (cs : List String)
    {rs rs' : List Row} (hperm : rs.Perm rs') :
    update_rows r (Frame.mk cs rs) = update_rows r (Frame.mk cs rs') := by
  unfold update_rows
  cases List.lookup "planet_name" r with
  | none => rfl
  | some v =>
    by_cases hcol : "planet_name" ∈ cs
    · have hfilter := hperm.filter
        (fun r => decide (compareEq (nameOfD r) v = Except.ok true))
      have hall := list_all_perm hperm
        (fun r => (compareEq (nameOfD r) v).isOk)
      show (if "planet_name" ∈ cs then
          match filterMatches rs v with
          | Except.error e => Except.error e
          | Except.ok [] => Except.ok r
          | Except.ok [x] => Except.ok (dictUpdate r x)
          | Except.ok (_ :: _ :: _) =>
            Except.error PyErr.tooManyRowsReturnedError
        else Except.error (PyErr.columnNotFoundError "planet_name")) =
        (if "planet_name" ∈ cs then
          match filterMatches rs' v with
          | Except.error e => Except.error e
          | Except.ok [] => Except.ok r
          | Except.ok [x] => Except.ok (dictUpdate r x)
          | Except.ok (_ :: _ :: _) =>
            Except.error PyErr.tooManyRowsReturnedError
        else Except.error (PyErr.columnNotFoundError "planet_name"))
      rw [if_pos hcol, if_pos hcol, filterMatches_eq_alt rs v,
        filterMatches_eq_alt rs' v, hall]
      by_cases hok : rs'.all (fun r => (compareEq (nameOfD r) v).isOk) = true
      · rw [if_pos hok, if_pos hok]
        cases hF : rs.filter
            (fun r => decide (compareEq (nameOfD r) v = Except.ok true)) with
        | nil =>
          rw [hF] at hfilter
          have hF' : rs'.filter
              (fun r => decide (compareEq (nameOfD r) v = Except.ok true)) =
              [] := hfilter.nil_eq.symm
          rw [hF']
        | cons x tail =>
          rw [hF] at hfilter
          cases tail with
          | nil =>
            have hF' : rs'.filter
                (fun r => decide (compareEq (nameOfD r) v = Except.ok true)) =
                [x] := by
              have hlen := hfilter.length_eq
              cases hx : rs'.filter
                  (fun r => decide (compareEq (nameOfD r) v =
                    Except.ok true)) with
              | nil => rw [hx] at hlen; simp at hlen
              | cons y t2 =>
                rw [hx] at hlen hfilter
                cases t2 with
                | nil =>
                  have : x ∈ [y] := hfilter.mem_iff.mp (by simp)
                  simp at this
                  rw [this]
                | cons z t3 => simp at hlen
            rw [hF']
          | cons y rest =>
            have hlen := hfilter.length_eq
            obtain ⟨a, b, rest', hshape⟩ : ∃ a b rest', rs'.filter
                (fun r => decide (compareEq (nameOfD r) v = Except.ok true)) =
                a :: b :: rest' := by
              cases hx : rs'.filter
                  (fun r => decide (compareEq (nameOfD r) v =
                    Except.ok true)) with
              | nil => rw [hx] at hlen; simp at hlen
              | cons a t2 =>
                cases t2 with
                | nil => rw [hx] at hlen; simp at hlen
                | cons b rest' => exact ⟨a, b, rest', rfl⟩
            rw [hshape]
      · rw [if_neg hok, if_neg hok]
    · show (if "planet_name" ∈ cs then _ else
          Except.error (PyErr.columnNotFoundError "planet_name")) =
        (if "planet_name" ∈ cs then _ else
          Except.error (PyErr.columnNotFoundError "planet_name"))
      rw [if_neg hcol, if_neg hcol]

theorem mapM_congr {α β : Type} {f g : α → Except PyErr β} :
    ∀ (l : List α), (∀ a ∈ l, f a = g a) → l.mapM f = l.mapM g := by
  intro l
  induction l with
  | nil => intro _; rfl
  | cons a t ih =>
    intro h
    rw [List.mapM_cons, List.mapM_cons, h a (by simp),
      ih (fun a ha => h a (by simp [ha]))]

theorem mapM_ok_eq_map {α β : Type} (d : β) {f : α → Except PyErr β} :
    ∀ {l : List α} {out : List β}, l.mapM f = Except.ok out →
      out = l.map (fun a => match f a with
        | Except.ok b => b
        | Except.error _ => d) := by
  intro l
  induction l with
  | nil =>
    intro out h
    simp only [List.mapM_nil] at h
    cases h
    rfl
  | cons a t ih =>
    intro out h
    rw [List.mapM_cons] at h
    cases hfa : f a with
    | error e => rw [hfa] at h; cases h
    | ok b =>
      rw [hfa, except_ok_bind] at h
      cases hml : t.mapM f with
      | error e => rw [hml] at h; cases h
      | ok bs =>
        rw [hml, except_ok_bind] at h
        have hpure : (pure (b :: bs) : Except PyErr (List β)) =
            Except.ok (b :: bs) := rfl
        rw [hpure] at h
        injection h with h2
        subst h2
        rw [List.map_cons]
        congr 1
        · rw [hfa]
        · exact ih hml

/-- C4 counterexample: the claim states that reordering the rows of
either input yields an identical output table, including the relative
order of rows that share a name.  The (stable) sort only orders rows by
name, so two local rows sharing the name A keep their input order:
feeding the two orders of the same local table produces two different
output tables. -/
theorem c4_counterexample :
    ([[("planet_name", Value.vStr "A"), ("x", Value.vInt 1)],
      [("planet_name", Value.vStr "A"), ("x", Value.vInt 2)]] :
        List Row).Perm
      [[("planet_name", Value.vStr "A"), ("x", Value.vInt 2)],
       [("planet_name", Value.vStr "A"), ("x", Value.vInt 1)]] ∧
    update_frame
      (Frame.mk ["planet_name", "x"]
        [[("planet_name", Value.vStr "A"), ("x", Value.vInt 1)],
         [("planet_name", Value.vStr "A"), ("x", Value.vInt 2)]])
      (Frame.mk ["planet_name"] []) =
      Except.ok (Frame.mk ["planet_name", "x"]
        [[("planet_name", Value.vStr "A"), ("x", Value.vInt 1)],
         [("planet_name", Value.vStr "A"), ("x", Value.vInt 2)]]) ∧
    update_frame
      (Frame.mk ["planet_name", "x"]
        [[("planet_name", Value.vStr "A"), ("x", Value.vInt 2)],
         [("planet_name", Value.vStr "A"), ("x", Value.vInt 1)]])
      (Frame.mk ["planet_name"] []) =
      Except.ok (Frame.mk ["planet_name", "x"]
        [[("planet_name", Value.vStr "A"), ("x", Value.vInt 2)],
         [("planet_name", Value.vStr "A"), ("x", Value.vInt 1)]]) ∧
    (Frame.mk ["planet_name", "x"]
      [[("planet_name", Value.vStr "A"), ("x", Value.vInt 1)],
       [("planet_name", Value.vStr "A"), ("x", Value.vInt 2)]]) ≠
    (Frame.mk ["planet_name", "x"]
      [[("planet_name", Value.vStr "A"), ("x", Value.vInt 2)],
       [("planet_name", Value.vStr "A"), ("x", Value.vInt 1)]]) := by
  refine ⟨by decide, by decide, by decide, by decide⟩

/-- C4 amended: every table the merge returns is sorted ascending by
the name column (ordinal string compare, modelled as a stable insertion
sort); permuting the rows of the remote table leaves the result —
table or exception — identical; and permuting the rows of the local
table leaves the returned table identical PROVIDED the local names are
pairwise distinct (rows sharing a name keep their input order, which
the sort does not normalize); the local frame must carry the name
column and the remote frame must be well formed. -/
theorem c4_sorted_and_order_invariance :
    (∀ (parent child M : Frame), update_frame parent child = Except.ok M →
      M.rows.Pairwise rowOrder) ∧
    (∀ (parent : Frame) (cs : List String) (rs rs' : List Row),
      rs.Perm rs' →
      update_frame parent (Frame.mk cs rs) =
        update_frame parent (Frame.mk cs rs')) ∧
    (∀ (cs : List String) (ls ls' : List Row) (child M M' : Frame),
      ls.Perm ls' → "planet_name" ∈ cs → WFFrame child →
      (ls.map nameOfD).Nodup →
      update_frame (Frame.mk cs ls) child = Except.ok M →
      update_frame (Frame.mk cs ls') child = Except.ok M' → M = M') := by
  refine ⟨?_, ?_, ?_⟩
  · intro parent child M hok
    obtain ⟨out, _, hsort, _⟩ := update_frame_ok_parts hok
    exact sortByName_ok_sorted hsort
  · intro parent cs rs rs' hperm
    have hcong : (parent.rows.map
        (extendRow (setdiff1d cs parent.cols))).mapM
          (fun r => update_rows r (Frame.mk cs rs)) =
        (parent.rows.map (extendRow (setdiff1d cs parent.cols))).mapM
          (fun r => update_rows r (Frame.mk cs rs')) :=
      mapM_congr _ (fun a _ => update_rows_child_perm a cs hperm)
    show (do
        let temporary_dictionary ← (parent.rows.map
          (extendRow (setdiff1d cs parent.cols))).mapM
            (fun r => update_rows r (Frame.mk cs rs))
        let finalised ← sortByName temporary_dictionary
        Except.ok (Frame.mk (parent.cols ++ setdiff1d cs parent.cols)
          finalised)) =
      (do
        let temporary_dictionary ← (parent.rows.map
          (extendRow (setdiff1d cs parent.cols))).mapM
            (fun r => update_rows r (Frame.mk cs rs'))
        let finalised ← sortByName temporary_dictionary
        Except.ok (Frame.mk (parent.cols ++ setdiff1d cs parent.cols)
          finalised))
    rw [hcong]
  · intro cs ls ls' child M M' hperm hpl hWFc hnodup hok hok'
    obtain ⟨out, hmapM0, hsort, hcols0⟩ := update_frame_ok_parts hok
    obtain ⟨out', hmapM0', hsort', hcols0'⟩ := update_frame_ok_parts hok'
    have hmapM : (ls.map (extendRow (setdiff1d child.cols cs))).mapM
        (fun r => update_rows r child) = Except.ok out := hmapM0
    have hmapM' : (ls'.map (extendRow (setdiff1d child.cols cs))).mapM
        (fun r => update_rows r child) = Except.ok out' := hmapM0'
    have hcols : M.cols = cs ++ setdiff1d child.cols cs := hcols0
    have hcols' : M'.cols = cs ++ setdiff1d child.cols cs := hcols0'
    have hout := mapM_ok_eq_map ([] : Row) hmapM
    have hout' := mapM_ok_eq_map ([] : Row) hmapM'
    have hpermOut : out.Perm out' := by
      rw [hout, hout']
      exact (hperm.map (extendRow (setdiff1d child.cols cs))).map _
    have hpermM : M.rows.Perm M'.rows :=
      ((sortByName_ok_perm hsort).trans hpermOut).trans
        (sortByName_ok_perm hsort').symm
    have hplq : "planet_name" ∉ setdiff1d child.cols cs := fun hh =>
      ((mem_setdiff1d _ _ _).mp hh).2 hpl
    have hnames : out.map nameOfD = ls.map nameOfD := by
      rw [hout, List.map_map, List.map_map]
      apply List.map_congr_left
      intro l hl
      simp only [Function.comp]
      obtain ⟨b, _, hb⟩ := forall₂_mem_left (mapM_ok_forall₂ hmapM)
        (extendRow (setdiff1d child.cols cs) l) (List.mem_map_of_mem _ hl)
      have hlook := update_rows_ok_name hWFc hb
      rw [lookup_extendRow_of_not_mem _ l hplq] at hlook
      rw [hb]
      simp [nameOfD, hlook]
    have hndM : (M.rows.map nameOfD).Nodup := by
      have hp1 : (M.rows.map nameOfD).Perm (out.map nameOfD) :=
        (sortByName_ok_perm hsort).map nameOfD
      rw [hp1.nodup_iff, hnames]
      exact hnodup
    have hroweq : M.rows = M'.rows :=
      sorted_perm_nodup_names_eq hpermM (sortByName_ok_sorted hsort)
        (sortByName_ok_sorted hsort') hndM
    cases M with
    | mk mc mr =>
      cases M' with
      | mk mc' mr' =>
        have h1 : mc = mc' := by
          have ha : mc = cs ++ setdiff1d child.cols cs := hcols
          have hb2 : mc' = cs ++ setdiff1d child.cols cs := hcols'
          rw [ha, hb2]
        have h2 : mr = mr' := hroweq
        rw [h1, h2]

theorem c4_sorted_and_order_invariance_witness :
    (Frame.mk ["planet_name"]
        [[("planet_name", Value.vStr "A")],
         [("planet_name", Value.vStr "B")]]).rows.Pairwise rowOrder ∧
    update_frame
        (Frame.mk ["planet_name"] [[("planet_name", Value.vStr "A")]])
        (Frame.mk ["planet_name"]
          [[("planet_name", Value.vStr "A")],
           [("planet_name", Value.vStr "B")]]) =
      update_frame
        (Frame.mk ["planet_name"] [[("planet_name", Value.vStr "A")]])
        (Frame.mk ["planet_name"]
          [[("planet_name", Value.vStr "B")],
           [("planet_name", Value.vStr "A")]]) ∧
    (Frame.mk ["planet_name"]
        [[("planet_name", Value.vStr "A")],
         [("planet_name", Value.vStr "B")]]) =
      (Frame.mk ["planet_name"]
        [[("planet_name", Value.vStr "A")],
         [("planet_name", Value.vStr "B")]]) := by
  refine ⟨?_, ?_, ?_⟩
  · exact c4_sorted_and_order_invariance.1
      (Frame.mk ["planet_name"]
        [[("planet_name", Value.vStr "A")],
         [("planet_name", Value.vStr "B")]])
      (Frame.mk ["planet_name"] [])
      (Frame.mk ["planet_name"]
        [[("planet_name", Value.vStr "A")],
         [("planet_name", Value.vStr "B")]])
      (by decide)
  · exact c4_sorted_and_order_invariance.2.1
      (Frame.mk ["planet_name"] [[("planet_name", Value.vStr "A")]])
      ["planet_name"]
      [[("planet_name", Value.vStr "A")], [("planet_name", Value.vStr "B")]]
      [[("planet_name", Value.vStr "B")], [("planet_name", Value.vStr "A")]]
      (by decide)
  · exact c4_sorted_and_order_invariance.2.2
      ["planet_name"]
      [[("planet_name", Value.vStr "A")], [("planet_name", Value.vStr "B")]]
      [[("planet_name", Value.vStr "B")], [("planet_name", Value.vStr "A")]]
      (Frame.mk ["planet_name"] [])
      (Frame.mk ["planet_name"]
        [[("planet_name", Value.vStr "A")],
         [("planet_name", Value.vStr "B")]])
      (Frame.mk ["planet_name"]
        [[("planet_name", Value.vStr "A")],
         [("planet_name", Value.vStr "B")]])
      (by decide) (by decide) (by decide) (by decide) (by decide) (by decide)
